import Mathlib

/-!
Verification of the ETL / analysis pipeline of the
"Credit Market Frictions - Empirical Evidence from Indian Banking Market"
repository.

The pipeline (`src/pipeline/etl_pipeline.py`) reads three spreadsheets,
standardizes them, merges them into a yearly panel, consolidates and
finalizes the panel; the analysis scripts (`src/analysis/02_baseline_model.py`,
`src/analysis/04_robustness_models.py`) fit OLS regressions with HC1 robust
standard errors via an external statistics library.

This file gives a shallow embedding of those programs:
 * a table (pandas DataFrame) is a list of column names plus a list of rows,
   where a row is an association list from column names to cells;
 * a cell is missing (NaN), an integer, or a string;
 * file-system effects are made explicit (a possibly missing input file is an
   `Option`, exceptions are `Except`, writes are recorded in a list).
-/

/-- A cell of a table: missing (NaN), a number, or a string.
Numbers are modelled as integers (the pipeline only ever compares,
coerces and carries them; it does no fractional arithmetic). -/
inductive Cell where
  | na : Cell
  | int : Int → Cell
  | str : String → Cell
deriving DecidableEq

/-- A row: association list from column names to cells. -/
abbrev Row := List (String × Cell)

/-- A table: column labels plus rows (a pandas DataFrame; the 0..n-1
positional index is implicit in the list structure). -/
structure DF where
  cols : List String
  rows : List Row
deriving DecidableEq

/-- Look a column up in a row; a missing key reads as NaN
(first binding wins, as for a pandas label lookup). -/
def lookupCell : Row → String → Cell
  | [], _ => Cell.na
  | kv :: r, c => if kv.1 = c then kv.2 else lookupCell r c

/-- Keys of a row. -/
def rowKeys (r : Row) : List String := r.map Prod.fst

/-- Rename all column labels by `f` (pandas `df.rename` / direct column
assignment): applied to the labels and to every row's keys. -/
def renameCols (f : String → String) (df : DF) : DF :=
  { cols := df.cols.map f,
    rows := df.rows.map (fun r => r.map (fun kv => (f kv.1, kv.2))) }

/-- Column selection `df[cs]`: keeps exactly the listed columns, in order. -/
def selectCols (cs : List String) (df : DF) : DF :=
  { cols := cs,
    rows := df.rows.map (fun r => cs.map (fun c => (c, lookupCell r c))) }

/-- `df.drop(columns=ds)`: remove the listed labels, keep the others in order. -/
def dropColumns (ds : List String) (df : DF) : DF :=
  { cols := df.cols.filter (fun c => !ds.contains c),
    rows := df.rows.map (fun r => r.filter (fun kv => !ds.contains kv.1)) }

/-- Column assignment `df[c] = f(row)`: overwrite in place when the label
exists, else append the new column at the end (pandas semantics). -/
def assignCol (c : String) (f : Row → Cell) (df : DF) : DF :=
  if df.cols.contains c then
    { cols := df.cols,
      rows := df.rows.map (fun r =>
        r.map (fun kv => if kv.1 = c then (kv.1, f r) else kv)) }
  else
    { cols := df.cols ++ [c],
      rows := df.rows.map (fun r => r ++ [(c, f r)]) }

/-- Apply `g` to every cell of column `c` in place. -/
def mapCol (c : String) (g : Cell → Cell) (df : DF) : DF :=
  { cols := df.cols,
    rows := df.rows.map (fun r =>
      r.map (fun kv => if kv.1 = c then (kv.1, g kv.2) else kv)) }

/-- The `year` cell of a row. -/
def yearCell (r : Row) : Cell := lookupCell r "year"

/-- The `year` of a row as an integer (rows in the pipeline always carry an
integer year by the time they are sorted; anything else reads as 0). -/
def yearInt (r : Row) : Int :=
  match yearCell r with
  | Cell.int n => n
  | _ => 0

/-- Ordering of rows by year, used by every `sort_values("year")`. -/
def rowLe (a b : Row) : Prop := yearInt a ≤ yearInt b

instance : DecidableRel rowLe := fun a b =>
  inferInstanceAs (Decidable (yearInt a ≤ yearInt b))

instance : IsTotal Row rowLe := ⟨fun a b => Int.le_total (yearInt a) (yearInt b)⟩

instance : IsTrans Row rowLe := ⟨fun _ _ _ h1 h2 => le_trans h1 h2⟩

/-- `df.sort_values("year").reset_index(drop=True)`: stable sort of the rows
by year (the reset index is the implicit list position). -/
def sortReset (df : DF) : DF :=
  { cols := df.cols, rows := List.insertionSort rowLe df.rows }

/-- The list of `year` cells of a table. -/
def yearsOf (df : DF) : List Cell := df.rows.map yearCell

/-- ASCII digit test (the `\d` of the regexes, restricted to ASCII). -/
def isDig (c : Char) : Bool := 48 ≤ c.toNat && c.toNat ≤ 57

/-- Numeric value of an ASCII digit. -/
def digVal (c : Char) : Nat := c.toNat - 48

/-- Value of a nonempty all-digit string. -/
def digitsVal (l : List Char) : Option Nat :=
  if l ≠ [] ∧ l.all isDig then
    some (l.foldl (fun a c => 10 * a + digVal c) 0)
  else none

/-- Parse an optional-sign integer literal (the fragment of
`pd.to_numeric` the pipeline relies on; anything else coerces to NaN). -/
def parseIntStr (s : String) : Option Int :=
  match s.data with
  | '-' :: rest => (digitsVal rest).map (fun n => -(n : Int))
  | l => (digitsVal l).map (fun n => (n : Int))

/-- `pd.to_numeric(value, errors="coerce")` on one cell: numbers pass
through, numeric strings parse, everything else becomes NaN. -/
def toNumeric : Cell → Cell
  | Cell.na => Cell.na
  | Cell.int n => Cell.int n
  | Cell.str s =>
    match parseIntStr s with
    | some n => Cell.int n
    | none => Cell.na

/-- `.astype(int)` on one cell: fails (raises) on NaN and on
non-numeric strings. -/
def astypeInt : Cell → Option Int
  | Cell.na => none
  | Cell.int n => some n
  | Cell.str s => parseIntStr s

/-- `df[c].astype(int)` over a whole column: `none` models the raised
conversion error. -/
def astypeIntCol (c : String) (df : DF) : Option DF :=
  if df.rows.all (fun r => (astypeInt (lookupCell r c)).isSome) then
    some (mapCol c (fun v => match astypeInt v with
      | some n => Cell.int n
      | none => Cell.na) df)
  else none

/-- String representation `str(value)` of a cell (only ever applied to
non-missing cells). -/
def cellStr : Cell → String
  | Cell.na => "nan"
  | Cell.int n => toString n
  | Cell.str s => s

section CleanColname

/-! ### `clean_colname` (etl_pipeline.py lines 115-124) -/

/-- Python `\s` whitespace (ASCII part). -/
def isPyWs (c : Char) : Bool :=
  c == ' ' || c == '\t' || c == '\n' || c == '\r' ||
  c == '\x0b' || c == '\x0c'

/-- Drop a trailing block of characters satisfying `p` (the right half of
Python's `str.strip`). -/
def dropTrailing (p : Char → Bool) : List Char → List Char
  | [] => []
  | c :: cs =>
    match dropTrailing p cs with
    | [] => if p c then [] else [c]
    | r => c :: r

/-- Python `str.strip(chars)`: drop leading and trailing characters
satisfying `p`. -/
def pyStrip (p : Char → Bool) (l : List Char) : List Char :=
  dropTrailing p (l.dropWhile p)

/-- `str.replace(a, b)` for single characters. -/
def replaceChar (a b : Char) (l : List Char) : List Char :=
  l.map (fun c => if c = a then b else c)

/-- `str.replace("/", "_to_")`. -/
def replaceSlash (l : List Char) : List Char :=
  l.flatMap (fun c => if c = '/' then ['_', 't', 'o', '_'] else [c])

/-- `re.sub(r"[()]", "", ...)`. -/
def removeParens (l : List Char) : List Char :=
  l.filter (fun c => !(c == '(' || c == ')'))

/-- `re.sub(r"[%]", "pct", ...)`. -/
def replacePct (l : List Char) : List Char :=
  l.flatMap (fun c => if c = '%' then ['p', 'c', 't'] else [c])

/-- Replace every maximal nonempty run of characters satisfying `p` by the
single character `rep` (`re.sub(r"X+", rep, ...)` for a character class). -/
def collapseRuns (p : Char → Bool) (rep : Char) : List Char → List Char
  | [] => []
  | [c] => [if p c then rep else c]
  | c1 :: c2 :: cs =>
    if p c1 && p c2 then collapseRuns p rep (c2 :: cs)
    else (if p c1 then rep else c1) :: collapseRuns p rep (c2 :: cs)

/-- ASCII uppercase test. -/
def isUpperAZ (c : Char) : Bool := 65 ≤ c.toNat && c.toNat ≤ 90

/-- `str.lower()` on one character (ASCII). -/
def lowerChar (c : Char) : Char :=
  if isUpperAZ c then Char.ofNat (c.toNat + 32) else c

/-- Underscore test. -/
def isUnd (c : Char) : Bool := c == '_'

/-- `clean_colname` on a character list: strip whitespace, normalize
dashes, `/` to `_to_`, delete parentheses, `%` to `pct`, whitespace runs
to `_`, dash runs to `_`, collapse multiple underscores, lowercase,
strip underscores. -/
def cleanChars (l : List Char) : List Char :=
  pyStrip isUnd
    ((collapseRuns isUnd '_'
      (collapseRuns (fun c => c == '-') '_'
        (collapseRuns isPyWs '_'
          (replacePct
            (removeParens
              (replaceSlash
                (replaceChar '—' '-'
                  (replaceChar '–' '-'
                    (pyStrip isPyWs l))))))))).map lowerChar)

/-- `clean_colname` (etl_pipeline.py lines 115-124). -/
def clean_colname (s : String) : String :=
  String.mk (cleanChars s.data)

/-- Characters that none of the rewriting stages of `clean_colname`
touches (underscores and letters are allowed; case is handled apart). -/
def preGood (c : Char) : Bool :=
  !(isPyWs c) && !(c == '–') && !(c == '—') && !(c == '/') && !(c == '(') &&
    !(c == ')') && !(c == '%') && !(c == '-')

/-- Normal-form characters of a `clean_colname` output: untouched by every
rewriting stage and not ASCII uppercase. -/
def goodChar (c : Char) : Bool := preGood c && !(isUpperAZ c)

end CleanColname

section ParseYear

/-! ### `parse_year` (etl_pipeline.py lines 127-132) -/

/-- Does the 4-character window match `19\d\d` or `20\d\d`? -/
def yearPat (c1 c2 c3 c4 : Char) : Bool :=
  ((c1 == '1' && c2 == '9') || (c1 == '2' && c2 == '0')) &&
    isDig c3 && isDig c4

/-- Value of a matched window. -/
def yearVal (c1 c2 c3 c4 : Char) : Nat :=
  1000 * digVal c1 + 100 * digVal c2 + 10 * digVal c3 + digVal c4

/-- Leftmost match of `re.search(r"(19\d{2}|20\d{2})", s)`. -/
def findYear : List Char → Option Nat
  | c1 :: c2 :: c3 :: c4 :: rest =>
    if yearPat c1 c2 c3 c4 then some (yearVal c1 c2 c3 c4)
    else findYear (c2 :: c3 :: c4 :: rest)
  | _ => none

/-- `parse_year` (etl_pipeline.py lines 127-132): `None` on NaN, else the
first `19xx`/`20xx` substring of `str(value)`, as an integer. -/
def parse_year : Cell → Option Int
  | Cell.na => none
  | v => (findYear (cellStr v).data).map (fun n => (n : Int))

/-- The year pattern read off at position `i` of the string (the
specification of a regex match anchored at one position). -/
def yearAt (l : List Char) (i : Nat) : Option Nat :=
  match l.drop i with
  | c1 :: c2 :: c3 :: c4 :: _ =>
    if yearPat c1 c2 c3 c4 then some (yearVal c1 c2 c3 c4) else none
  | _ => none

end ParseYear

section Pipeline

/-! ### The ETL transformations (etl_pipeline.py) -/

/-- Raised exceptions of the pipeline. -/
inductive ETLError where
  | fileNotFound : String → ETLError
  | keyError : String → ETLError
  | valueError : String → ETLError
deriving DecidableEq

/-- `df.rename(columns=m)`: first matching old name wins, unmatched names
pass through. -/
def applyRename : List (String × String) → String → String
  | [], c => c
  | kv :: m, c => if kv.1 = c then kv.2 else applyRename m c

/-- The `rename_map` of `standardize_business_cycle` (in source order). -/
def bcRenameMap : List (String × String) :=
  [("year", "year"),
   ("gdp", "gdp_level"),
   ("log_gdp", "gdp_log"),
   ("log_gdp_growth", "gdp_log_growth"),
   ("bank_credit", "bank_credit_level"),
   ("log_bank_credit", "bank_credit_log"),
   ("log_credit_growth", "bank_credit_log_growth")]

/-- `keep = list(rename_map.values())`. -/
def bcKeep : List String :=
  ["year", "gdp_level", "gdp_log", "gdp_log_growth",
   "bank_credit_level", "bank_credit_log", "bank_credit_log_growth"]

/-- `standardize_business_cycle` (etl_pipeline.py lines 135-153), as a
function of the sheet contents: clean column names, rename, cast the year
to int (raising on a missing column or a failed cast), keep the renamed
columns, sort by year. -/
def standardize_business_cycle (df : DF) : Except ETLError DF :=
  let d1 := renameCols clean_colname df
  let d2 := renameCols (applyRename bcRenameMap) d1
  if d2.cols.contains "year" then
    match astypeIntCol "year" d2 with
    | some d3 =>
      if bcKeep.all (fun c => d3.cols.contains c) then
        Except.ok (sortReset (selectCols bcKeep d3))
      else Except.error (ETLError.keyError "keep columns")
    | none => Except.error (ETLError.valueError "year astype")
  else Except.error (ETLError.keyError "year")

/-- The `rename_map` of `standardize_leverage`. -/
def levRenameMap : List (String × String) :=
  [("repos", "repos_level"),
   ("repos_growth", "repos_growth"),
   ("deposits_level", "deposits_level"),
   ("deposits_growth", "deposits_growth"),
   ("loan_to_nominal_gdp", "loan_to_nominal_gdp"),
   ("credit_to_deposit_ratio", "credit_to_deposit_ratio")]

/-- `standardize_leverage` (etl_pipeline.py lines 156-175). -/
def standardize_leverage (df : DF) : Except ETLError DF :=
  let d1 := renameCols clean_colname df
  let d2 := if d1.cols.contains "years"
            then renameCols (applyRename [("years", "year")]) d1
            else d1
  if d2.cols.contains "year" then
    match astypeIntCol "year" d2 with
    | some d3 =>
      Except.ok (sortReset (renameCols (applyRename levRenameMap) d3))
    | none => Except.error (ETLError.valueError "year astype")
  else Except.error (ETLError.keyError "year")

/-- The `typo_fixes` rename of `standardize_balance_sheet`. -/
def typoFixes : List (String × String) :=
  [("capital_requiremnt", "capital_requirement"),
   ("capital_surplus_ration_growth", "capital_surplus_ratio_growth"),
   ("capital_surplus_ration", "capital_surplus_ratio"),
   ("leverage_ratiotrc_ta", "leverage_ratio_trc_to_ta")]

/-- Pack an optional parsed year back into a cell (`None` becomes NaN). -/
def cellOfYear : Option Int → Cell
  | some n => Cell.int n
  | none => Cell.na

/-- `standardize_balance_sheet` (etl_pipeline.py lines 178-199): clean
column names, derive `year` from `period` via `parse_year` (all-NaN when
`period` is absent), fix typos, drop rows with a missing year, sort.
The final `astype(int)` is the identity here: every surviving year cell
is an integer produced by `parse_year`. -/
def standardize_balance_sheet (df : DF) : DF :=
  let d1 := renameCols clean_colname df
  let d2 :=
    if d1.cols.contains "period" then
      assignCol "year" (fun r => cellOfYear (parse_year (lookupCell r "period"))) d1
    else assignCol "year" (fun _ => Cell.na) d1
  let d3 := renameCols (applyRename typoFixes) d2
  sortReset { cols := d3.cols,
              rows := d3.rows.filter (fun r => yearCell r ≠ Cell.na) }

/-- `drop_duplicates("year", keep="first")`: keep a row when its year has
not been seen before it. -/
def dedupYearAux (seen : List Cell) : List Row → List Row
  | [] => []
  | r :: rs =>
    if seen.contains (yearCell r) then dedupYearAux seen rs
    else r :: dedupYearAux (yearCell r :: seen) rs

/-- The coercion step of `load_csv`: `df["year"] = pd.to_numeric(df["year"],
errors="coerce")` followed by `dropna(subset=["year"])` (the subsequent
`astype(int)` is the identity: the surviving year cells are integers). -/
def loadCoerce (raw : DF) : DF :=
  let d1 := mapCol "year" toNumeric raw
  { cols := d1.cols,
    rows := d1.rows.filter (fun r => yearCell r ≠ Cell.na) }

/-- `load_csv` (etl_pipeline.py lines 214-230), with the possibly missing
file made explicit: raise when the file is absent or has no `year` column;
coerce the year to numeric, drop rows whose year failed to coerce; when
some year is duplicated, sort by year and keep the first row of each year. -/
def load_csv (file : Option DF) : Except ETLError DF :=
  match file with
  | none => Except.error (ETLError.fileNotFound "File not found")
  | some raw =>
    if raw.cols.contains "year" then
      let d2 := loadCoerce raw
      if (yearsOf d2).Nodup then Except.ok d2
      else Except.ok { cols := d2.cols,
                       rows := dedupYearAux [] (List.insertionSort rowLe d2.rows) }
    else Except.error (ETLError.keyError "Missing required column year")

/-- The specification's reading of `drop_duplicates("year", keep="first")`:
keep, for each year, exactly the first row carrying it. -/
def keepFirstByYear : List Row → List Row
  | [] => []
  | r :: rs =>
    r :: keepFirstByYear (rs.filter (fun x => yearCell x ≠ yearCell r))
termination_by l => l.length
decreasing_by
  simp only [List.length_cons]
  exact Nat.lt_succ_of_le (List.length_filter_le _ _)

/-- The column labels contributed by the right table of a merge on `year`:
everything but the key, with `suf` appended to labels that collide with a
left label (pandas `suffixes=("", suf)`). -/
def joinRightCols (lcols rcols : List String) (suf : String) : List String :=
  (rcols.filter (fun c => c ≠ "year")).map
    (fun c => if lcols.contains c then c ++ suf else c)

/-- Right-hand part of a joined row when no right row matches: all NaN. -/
def nullRight (lcols rcols : List String) (suf : String) : Row :=
  (joinRightCols lcols rcols suf).map (fun c => (c, Cell.na))

/-- Right-hand part of a joined row built from the matching right row. -/
def matchRight (lcols rcols : List String) (suf : String) (rr : Row) : Row :=
  (rcols.filter (fun c => c ≠ "year")).map
    (fun c => (if lcols.contains c then c ++ suf else c, lookupCell rr c))

/-- `l.merge(r, on="year", how="left", suffixes=("", suf))`: every left row
is paired with each matching right row (with all right columns NaN when
there is no match), preserving left order. -/
def leftJoinYear (l r : DF) (suf : String) : DF :=
  { cols := l.cols ++ joinRightCols l.cols r.cols suf,
    rows := l.rows.flatMap (fun lr =>
      let ms := r.rows.filter (fun rr => yearCell rr = yearCell lr)
      if ms.isEmpty then [lr ++ nullRight l.cols r.cols suf]
      else ms.map (fun rr => lr ++ matchRight l.cols r.cols suf rr)) }

/-- `merge_master_panel` (etl_pipeline.py lines 233-247), as a function of
the three loaded tables: left-join leverage then business-cycle onto the
balance sheet on `year`, sort by year, reset the index. -/
def merge_master_panel (bs lev bc : DF) : DF :=
  sortReset (leftJoinYear (leftJoinYear bs lev "_lev") bc "_bc")

/-- `merge_master_panel` with its three `load_csv` reads and its write made
explicit: the second component lists the files written (the master panel is
only written after all three loads succeed; a raise leaves no write). -/
def merge_master_panel_run (bsFile levFile bcFile : Option DF) :
    Except ETLError DF × List String :=
  match load_csv bsFile with
  | Except.error e => (Except.error e, [])
  | Except.ok bs =>
    match load_csv levFile with
    | Except.error e => (Except.error e, [])
    | Except.ok lev =>
      match load_csv bcFile with
      | Except.error e => (Except.error e, [])
      | Except.ok bc =>
        (Except.ok (merge_master_panel bs lev bc), ["master_panel.csv"])

/-- The `drop_cols` list of `build_consolidated_panel`. -/
def consolidatedDropList : List String :=
  ["gdp_level", "gdp_level_bc", "gdp_growth", "gdp_log", "gdp_log_growth",
   "gdp_level_consolidated",
   "bank_credit_lev", "bank_credit_growth", "bank_credit_level",
   "bank_credit_log", "bank_credit_log_growth",
   "bank_credit_level_consolidated",
   "bank_credit_log_consolidated",
   "bank_credit_log_growth_consolidated",
   "bank_credit_growth_consolidated"]

/-- The candidate front columns of `build_consolidated_panel` and
`finalize_dataset` (both filter this list down to the present columns). -/
def consolidatedFront : List String :=
  ["year", "period_label", "nominal_gdp", "log_nominal_gdp",
   "nominal_gdp_growth", "bank_credit", "log_bank_credit",
   "log_bank_credit_growth"]

/-- `build_consolidated_panel` (etl_pipeline.py lines 253-293): rename
`period` to `period_label`, drop the GDP/credit columns from the
non-balance-sheet sources, move the balance-sheet GDP/credit columns to
the front, sort by year. -/
def build_consolidated_panel (master : DF) : DF :=
  let d1 := if master.cols.contains "period"
            then renameCols (applyRename [("period", "period_label")]) master
            else master
  let d2 := dropColumns (consolidatedDropList.filter (fun c => d1.cols.contains c)) d1
  let front := consolidatedFront.filter (fun c => d2.cols.contains c)
  let rest := d2.cols.filter (fun c => !front.contains c)
  sortReset (selectCols (front ++ rest) d2)

/-- The `key_numeric` columns of `finalize_dataset`. -/
def keyNumericCols : List String :=
  ["nominal_gdp", "log_nominal_gdp", "nominal_gdp_growth",
   "bank_credit", "log_bank_credit", "log_bank_credit_growth"]

/-- `finalize_dataset` (etl_pipeline.py lines 299-332): raise ValueError on
a duplicated year, coerce the key numeric columns, re-assert the front
column ordering, sort by year. -/
def finalize_dataset (consolidated : DF) : Except ETLError DF :=
  if (yearsOf consolidated).Nodup then
    let d1 := keyNumericCols.foldl
      (fun d c => if d.cols.contains c then mapCol c toNumeric d else d)
      consolidated
    let front := consolidatedFront.filter (fun c => d1.cols.contains c)
    let rest := d1.cols.filter (fun c => !front.contains c)
    Except.ok (sortReset (selectCols (front ++ rest) d1))
  else Except.error (ETLError.valueError "Duplicate years found in consolidated panel.")

/-- The steps of the ETL `main`, in execution order. -/
inductive StepTag where
  | validation | standardize | writeStd | merge | consolidate
  | finalizeStep | qa | dict
deriving DecidableEq

/-- All steps, in order. -/
def allSteps : List StepTag :=
  [StepTag.validation, StepTag.standardize, StepTag.writeStd, StepTag.merge,
   StepTag.consolidate, StepTag.finalizeStep, StepTag.qa, StepTag.dict]

/-- The file system the ETL `main` sees: the three configured inputs, each
possibly missing. -/
structure Env where
  businessCycle : Option DF
  leverage : Option DF
  balanceSheet : Option DF
deriving DecidableEq

/-- `main` (etl_pipeline.py lines 403-444): run validation (which writes
its report regardless), hard-stop with exit code 1 when an input file is
missing, otherwise standardize, write, merge (re-reading the just-written
standardized CSVs), consolidate, finalize, write the QA report and data
dictionary, and return 0. The first component records the steps reached;
an `Except.error` outcome is an uncaught exception. -/
def etl_main (env : Env) : List StepTag × Except ETLError Nat :=
  match env.businessCycle, env.leverage, env.balanceSheet with
  | some bcRaw, some levRaw, some bsRaw =>
    match standardize_business_cycle bcRaw with
    | Except.error e =>
      ([StepTag.validation, StepTag.standardize], Except.error e)
    | Except.ok bcS =>
      match standardize_leverage levRaw with
      | Except.error e =>
        ([StepTag.validation, StepTag.standardize], Except.error e)
      | Except.ok levS =>
        let bsS := standardize_balance_sheet bsRaw
        match merge_master_panel_run (some bsS) (some levS) (some bcS) with
        | (Except.error e, _) =>
          ([StepTag.validation, StepTag.standardize, StepTag.writeStd,
            StepTag.merge], Except.error e)
        | (Except.ok master, _) =>
          let consolidated := build_consolidated_panel master
          match finalize_dataset consolidated with
          | Except.error e =>
            ([StepTag.validation, StepTag.standardize, StepTag.writeStd,
              StepTag.merge, StepTag.consolidate, StepTag.finalizeStep],
             Except.error e)
          | Except.ok _ => (allSteps, Except.ok 0)
  | _, _, _ => ([StepTag.validation], Except.ok 1)

end Pipeline

section Analysis

/-! ### The regression scripts (02_baseline_model.py, 04_robustness_models.py) -/

/-- The call the scripts hand to the external statistics library:
response, design-matrix column names and rows (the constant included), and
the covariance type. The numerics of `sm.OLS(...).fit(...)` stay in the
library and are not modelled. -/
structure OLSCall where
  y : List Cell
  xNames : List String
  xRows : List Row
  covType : String
deriving DecidableEq

/-- A row survives `dropna()` when the coerced response and every coerced
regressor is non-missing. -/
def rowOk (yCol : String) (xCols : List String) (r : Row) : Bool :=
  !(toNumeric (lookupCell r yCol) == Cell.na) &&
    xCols.all (fun c => !(toNumeric (lookupCell r c) == Cell.na))

/-- `fit_ols` (04_robustness_models.py lines 53-62): read the response and
regressor columns (KeyError when absent), coerce them to numeric, drop the
rows with any missing value, add the constant, and hand the result to
`sm.OLS(...).fit(cov_type=...)`. -/
def fit_ols (df : DF) (yCol : String) (xCols : List String) (covType : String) :
    Except ETLError OLSCall :=
  if df.cols.contains yCol then
    if xCols.all (fun c => df.cols.contains c) then
      let kept := df.rows.filter (rowOk yCol xCols)
      Except.ok
        { y := kept.map (fun r => toNumeric (lookupCell r yCol)),
          xNames := "const" :: xCols,
          xRows := kept.map (fun r =>
            ("const", Cell.int 1) ::
              xCols.map (fun c => (c, toNumeric (lookupCell r c)))),
          covType := covType }
    else Except.error (ETLError.keyError "regressor column")
  else Except.error (ETLError.keyError "response column")

/-- The regressors of the baseline model (02_baseline_model.py). -/
def baselineXCols : List String :=
  ["capital_surplus_ratio", "nominal_gdp_growth", "net_npa_ratio",
   "change_in_rw", "leverage_ratiotrc_to_ta"]

/-- `main` of 02_baseline_model.py (lines 10-31): the same sequence of
operations as `fit_ols`, at the fixed baseline columns, with HC1. -/
def baseline_main (df : DF) : Except ETLError OLSCall :=
  fit_ols df "log_bank_credit_growth" baselineXCols "HC1"

/-- `Y_COL` of 04_robustness_models.py. -/
def robustnessYCol : String := "log_bank_credit_growth"

/-- The `SPECS` of 04_robustness_models.py, in source order. -/
def SPECS : List (String × List String) :=
  [("spec_1_baseline",
    ["capital_surplus_ratio", "nominal_gdp_growth", "net_npa_ratio",
     "change_in_rw", "leverage_ratiotrc_to_ta"]),
   ("spec_2_replace_capital_with_crar",
    ["crar", "nominal_gdp_growth", "net_npa_ratio",
     "change_in_rw", "leverage_ratiotrc_to_ta"]),
   ("spec_3_core_risk_only",
    ["net_npa_ratio", "change_in_rw", "nominal_gdp_growth"]),
   ("spec_4_drop_gdp_control",
    ["capital_surplus_ratio", "net_npa_ratio", "change_in_rw",
     "leverage_ratiotrc_to_ta"])]

/-- `specs_filtered` of the robustness `main`: keep, per spec, the
regressors present in the table, and drop specs with none left. -/
def specs_filtered (df : DF) : List (String × List String) :=
  (SPECS.map (fun p => (p.1, p.2.filter (fun c => df.cols.contains c)))).filter
    (fun p => !p.2.isEmpty)

/-- `main` of 04_robustness_models.py (lines 82-139), up to the fitted
models: raise when the final panel is missing or lacks the response
column, else fit every filtered spec with `fit_ols(..., cov_type="HC1")`. -/
def robustness_main (file : Option DF) : Except ETLError (List (String × OLSCall)) :=
  match file with
  | none => Except.error (ETLError.fileNotFound "final_panel.csv")
  | some df =>
    if df.cols.contains robustnessYCol then
      (specs_filtered df).mapM
        (fun p => (fit_ols df robustnessYCol p.2 "HC1").map (fun c => (p.1, c)))
    else Except.error (ETLError.keyError "Missing dependent variable")

end Analysis

/-- Decidable equality of raised-or-returned results, for concrete
evaluations. -/
instance {e a : Type} [DecidableEq e] [DecidableEq a] :
    DecidableEq (Except e a) := fun x y =>
  match x, y with
  | Except.error e1, Except.error e2 =>
    if h : e1 = e2 then isTrue (by rw [h])
    else isFalse (fun hc => h (by injection hc))
  | Except.ok v1, Except.ok v2 =>
    if h : v1 = v2 then isTrue (by rw [h])
    else isFalse (fun hc => h (by injection hc))
  | Except.error _, Except.ok _ => isFalse (fun hc => Except.noConfusion hc)
  | Except.ok _, Except.error _ => isFalse (fun hc => Except.noConfusion hc)

section WitnessData

/-! ### Small concrete tables for concrete evaluations -/

/-- A balance-sheet style table with unique integer years. -/
def wBS : DF :=
  { cols := ["year", "nominal_gdp", "bank_credit"],
    rows := [[("year", Cell.int 2001), ("nominal_gdp", Cell.int 100),
              ("bank_credit", Cell.int 50)],
             [("year", Cell.int 2002), ("nominal_gdp", Cell.int 110),
              ("bank_credit", Cell.int 55)]] }

/-- A leverage style table covering only 2001. -/
def wLev : DF :=
  { cols := ["year", "repos_level"],
    rows := [[("year", Cell.int 2001), ("repos_level", Cell.int 7)]] }

/-- A business-cycle style table covering only 2002. -/
def wBC : DF :=
  { cols := ["year", "gdp_log"],
    rows := [[("year", Cell.int 2002), ("gdp_log", Cell.int 9)]] }

/-- A table with a duplicated year. -/
def wDup : DF :=
  { cols := ["year"],
    rows := [[("year", Cell.int 2000)], [("year", Cell.int 2000)]] }

/-- A table without a `year` column. -/
def wNoYear : DF :=
  { cols := ["foo"], rows := [[("foo", Cell.int 1)]] }

/-- An empty sheet already carrying the cleaned business-cycle headers. -/
def wRawBC : DF :=
  { cols := ["year", "gdp", "log_gdp", "log_gdp_growth", "bank_credit",
             "log_bank_credit", "log_credit_growth"],
    rows := [] }

/-- An empty sheet already carrying the cleaned leverage headers. -/
def wRawLev : DF :=
  { cols := ["years", "repos"], rows := [] }

/-- A raw balance-sheet sheet with a `Period` column. -/
def wRawBS : DF :=
  { cols := ["Period", "CRAR"],
    rows := [[("Period", Cell.str "2003-04"), ("CRAR", Cell.int 12)],
             [("Period", Cell.str "junk"), ("CRAR", Cell.int 13)]] }

/-- An empty final panel carrying all regression columns. -/
def wPanel : DF :=
  { cols := ["year", "log_bank_credit_growth", "capital_surplus_ratio",
             "nominal_gdp_growth", "net_npa_ratio", "change_in_rw",
             "leverage_ratiotrc_to_ta", "crar"],
    rows := [] }

end WitnessData

section CleanColnameLemmas

/-! ### Lemmas on the `clean_colname` machinery -/

/-- `Char.ofNat` round-trips on valid code points. -/
theorem toNat_ofNat_valid (n : Nat) (h : n.isValidChar) : (Char.ofNat n).toNat = n := by
  simp only [Char.ofNat, dif_pos h, Char.ofNatAux, Char.toNat, UInt32.toNat]
  simp

/-- `lowerChar` fixes its input or lands in ASCII `a`-`z`. -/
theorem lowerChar_eq_or (c : Char) :
    lowerChar c = c ∨ (97 ≤ (lowerChar c).toNat ∧ (lowerChar c).toNat ≤ 122) := by
  unfold lowerChar
  split
  case isTrue h =>
    right
    simp only [isUpperAZ, Bool.and_eq_true, decide_eq_true_eq] at h
    have hv : (c.toNat + 32).isValidChar := by
      unfold Nat.isValidChar
      left
      omega
    rw [toNat_ofNat_valid _ hv]
    omega
  case isFalse h => left; rfl

/-- `lowerChar` never returns an ASCII uppercase letter. -/
theorem isUpperAZ_lowerChar (c : Char) : isUpperAZ (lowerChar c) = false := by
  unfold lowerChar
  split
  case isTrue h =>
    simp only [isUpperAZ, Bool.and_eq_true, decide_eq_true_eq] at h
    have hv : (c.toNat + 32).isValidChar := by
      unfold Nat.isValidChar; left; omega
    simp only [isUpperAZ, toNat_ofNat_valid _ hv]
    simp; omega
  case isFalse h => simpa [isUpperAZ] using h

/-- `lowerChar` neither creates nor destroys underscores. -/
theorem lowerChar_und (c : Char) : (lowerChar c = '_') ↔ (c = '_') := by
  constructor
  · intro h
    unfold lowerChar at h
    split at h
    case isTrue hu =>
      simp only [isUpperAZ, Bool.and_eq_true, decide_eq_true_eq] at hu
      have hv : (c.toNat + 32).isValidChar := by
        unfold Nat.isValidChar; left; omega
      have := congrArg Char.toNat h
      rw [toNat_ofNat_valid _ hv] at this
      rw [show ('_' : Char).toNat = 95 from by decide] at this
      omega
    case isFalse hu => exact h
  · intro h; subst h; rfl

/-- Every character of a collapse output is the replacement or an
out-of-class input character. -/
theorem mem_collapseRuns (p : Char → Bool) (rep : Char) (l : List Char) :
    ∀ c ∈ collapseRuns p rep l, c = rep ∨ (c ∈ l ∧ p c = false) := by
  induction l using collapseRuns.induct p rep with
  | case1 => intro c hc; simp [collapseRuns] at hc
  | case2 d =>
    intro c hc
    simp only [collapseRuns, List.mem_singleton] at hc
    by_cases h : p d = true
    · rw [if_pos h] at hc; exact Or.inl hc
    · rw [if_neg h] at hc
      subst hc
      exact Or.inr ⟨List.mem_singleton_self _, by simpa using h⟩
  | case3 c1 c2 cs hp ih =>
    intro c hc
    simp only [collapseRuns] at hc
    rw [if_pos (by simpa using hp)] at hc
    rcases ih c hc with h | ⟨h1, h2⟩
    · exact Or.inl h
    · exact Or.inr ⟨List.mem_cons_of_mem _ h1, h2⟩
  | case4 c1 c2 cs hp ih =>
    intro c hc
    simp only [collapseRuns] at hc
    rw [if_neg (by simpa using hp)] at hc
    rcases List.mem_cons.mp hc with hc | hc
    · by_cases h : p c1 = true
      · rw [if_pos h] at hc; exact Or.inl hc
      · rw [if_neg h] at hc
        subst hc
        exact Or.inr ⟨List.mem_cons_self _ _, by simpa using h⟩
    · rcases ih c hc with h | ⟨h1, h2⟩
      · exact Or.inl h
      · exact Or.inr ⟨List.mem_cons_of_mem _ h1, h2⟩

/-- Collapsing is the identity when no character is in the class. -/
theorem collapseRuns_eq_self (p : Char → Bool) (rep : Char) (l : List Char)
    (h : ∀ c ∈ l, p c = false) : collapseRuns p rep l = l := by
  induction l using collapseRuns.induct p rep with
  | case1 => rfl
  | case2 d =>
    have hd := h d (List.mem_singleton_self d)
    simp only [collapseRuns]
    rw [if_neg (by simp [hd])]
  | case3 c1 c2 cs hp ih =>
    exfalso
    have h1 := h c1 (List.mem_cons_self _ _)
    rw [h1] at hp
    simp at hp
  | case4 c1 c2 cs hp ih =>
    have h1 := h c1 (List.mem_cons_self _ _)
    simp only [collapseRuns]
    rw [if_neg (by simpa using hp), if_neg (by simp [h1]),
        ih (fun c hc => h c (List.mem_cons_of_mem _ hc))]

/-- The head of a collapse of a nonempty list. -/
theorem head?_collapseRuns (p : Char → Bool) (rep : Char) (c : Char) (cs : List Char) :
    (collapseRuns p rep (c :: cs)).head? = some (if p c = true then rep else c) := by
  induction cs generalizing c with
  | nil => simp [collapseRuns]
  | cons c2 cs ih =>
    by_cases h : (p c && p c2) = true
    · have h' : p c = true ∧ p c2 = true := by simpa using h
      simp only [collapseRuns]
      rw [if_pos h, ih c2, if_pos h'.2, if_pos h'.1]
    · simp only [collapseRuns]
      rw [if_neg h]
      simp

/-- No two adjacent characters of a collapse output are both in the class. -/
theorem chain'_collapseRuns (p : Char → Bool) (rep : Char) (l : List Char) :
    List.Chain' (fun a b => ¬(p a = true ∧ p b = true)) (collapseRuns p rep l) := by
  induction l using collapseRuns.induct p rep with
  | case1 => simp [collapseRuns]
  | case2 d => simp [collapseRuns]
  | case3 c1 c2 cs hp ih =>
    simp only [collapseRuns]
    rw [if_pos hp]
    exact ih
  | case4 c1 c2 cs hp ih =>
    have hp' : ¬(p c1 = true ∧ p c2 = true) := by simpa using hp
    simp only [collapseRuns]
    rw [if_neg hp, List.chain'_cons']
    refine ⟨?_, ih⟩
    by_cases h1 : p c1 = true
    · have h2 : p c2 = false := by
        rcases Bool.eq_false_or_eq_true (p c2) with h | h
        · exact absurd ⟨h1, h⟩ hp'
        · exact h
      intro y hy
      rw [head?_collapseRuns, Option.mem_def] at hy
      rw [if_neg (by simp [h2])] at hy
      injection hy with hy
      subst hy
      intro hcon
      rw [h2] at hcon
      exact Bool.false_ne_true hcon.2
    · rw [if_neg h1]
      intro y hy hcon
      exact h1 hcon.1

/-- The last element of a list is a member. -/
theorem mem_of_getLast?_eq {l : List Char} {c : Char} (h : l.getLast? = some c) :
    c ∈ l := by
  induction l with
  | nil => simp at h
  | cons a cs ih =>
    cases cs with
    | nil => simp at h; simp [h]
    | cons b bs =>
      rw [List.getLast?_cons_cons] at h
      exact List.mem_cons_of_mem _ (ih h)

/-- Unfolding equation for `dropTrailing` on a cons. -/
theorem dropTrailing_cons (p : Char → Bool) (c : Char) (cs : List Char) :
    dropTrailing p (c :: cs) =
      match dropTrailing p cs with
      | [] => if p c then [] else [c]
      | r => c :: r := rfl

/-- `dropTrailing` returns a prefix of its input. -/
theorem dropTrailing_prefix (p : Char → Bool) (l : List Char) :
    ∃ l2, l = dropTrailing p l ++ l2 := by
  induction l with
  | nil => exact ⟨[], rfl⟩
  | cons c cs ih =>
    rw [dropTrailing_cons]
    rcases ih with ⟨l2, hl2⟩
    cases h : dropTrailing p cs with
    | nil =>
      rw [h] at hl2
      by_cases hp : p c = true
      · rw [if_pos hp]; exact ⟨c :: cs, rfl⟩
      · rw [if_neg hp]; exact ⟨l2, by simpa using congrArg (c :: ·) hl2⟩
    | cons r rs =>
      rw [h] at hl2
      exact ⟨l2, by simpa using congrArg (c :: ·) hl2⟩

/-- The last element of `dropTrailing p l` does not satisfy `p`. -/
theorem getLast?_dropTrailing (p : Char → Bool) (l : List Char) :
    ∀ c, (dropTrailing p l).getLast? = some c → p c = false := by
  induction l with
  | nil => intro c hc; simp [dropTrailing] at hc
  | cons a cs ih =>
    intro c hc
    rw [dropTrailing_cons] at hc
    cases h : dropTrailing p cs with
    | nil =>
      rw [h] at hc
      by_cases hp : p a = true
      · rw [if_pos hp] at hc; simp at hc
      · rw [if_neg hp] at hc
        simp at hc
        subst hc
        simpa using hp
    | cons r rs =>
      rw [h] at hc
      rw [List.getLast?_cons_cons] at hc
      exact ih c (by rw [h]; exact hc)

/-- `dropTrailing` is the identity when the last element is out of class. -/
theorem dropTrailing_eq_self (p : Char → Bool) (l : List Char)
    (h : ∀ c, l.getLast? = some c → p c = false) : dropTrailing p l = l := by
  induction l with
  | nil => rfl
  | cons a cs ih =>
    rw [dropTrailing_cons]
    cases cs with
    | nil =>
      have ha := h a (by simp)
      simp [dropTrailing, ha]
    | cons b bs =>
      have hbs : dropTrailing p (b :: bs) = b :: bs := by
        apply ih
        intro c hc
        exact h c (by rw [List.getLast?_cons_cons]; exact hc)
      rw [hbs]

/-- The head of `dropTrailing p l` is the head of `l`. -/
theorem head?_dropTrailing (p : Char → Bool) (l : List Char) (c : Char)
    (hc : (dropTrailing p l).head? = some c) : l.head? = some c := by
  rcases dropTrailing_prefix p l with ⟨l2, hl2⟩
  cases hd : dropTrailing p l with
  | nil => rw [hd] at hc; simp at hc
  | cons x xs =>
    rw [hd] at hc hl2
    simp at hc
    rw [hl2]
    simpa using hc

/-- Members of `dropTrailing p l` are members of `l`. -/
theorem mem_dropTrailing (p : Char → Bool) (l : List Char) (c : Char)
    (hc : c ∈ dropTrailing p l) : c ∈ l := by
  rcases dropTrailing_prefix p l with ⟨l2, hl2⟩
  rw [hl2]
  exact List.mem_append_left _ hc

/-- The head of `dropWhile p l` does not satisfy `p`. -/
theorem head?_dropWhile_not (p : Char → Bool) (l : List Char) :
    ∀ c, (l.dropWhile p).head? = some c → p c = false := by
  induction l with
  | nil => intro c hc; simp at hc
  | cons a cs ih =>
    intro c hc
    rw [List.dropWhile_cons] at hc
    by_cases hp : p a = true
    · rw [if_pos hp] at hc; exact ih c hc
    · rw [if_neg hp] at hc
      simp at hc
      subst hc
      simpa using hp

/-- `dropWhile p l` is a suffix: some prefix was dropped. -/
theorem dropWhile_suffix_eq (p : Char → Bool) (l : List Char) :
    ∃ l1, l = l1 ++ l.dropWhile p := by
  induction l with
  | nil => exact ⟨[], rfl⟩
  | cons a cs ih =>
    rw [List.dropWhile_cons]
    by_cases hp : p a = true
    · rw [if_pos hp]
      rcases ih with ⟨l1, hl1⟩
      exact ⟨a :: l1, by simpa using congrArg (a :: ·) hl1⟩
    · rw [if_neg hp]; exact ⟨[], rfl⟩

/-- `dropWhile` is the identity when the head is out of class. -/
theorem dropWhile_eq_self (p : Char → Bool) (l : List Char)
    (h : ∀ c, l.head? = some c → p c = false) : l.dropWhile p = l := by
  cases l with
  | nil => rfl
  | cons a cs =>
    rw [List.dropWhile_cons, if_neg (by simp [h a rfl])]

/-- Members survive `pyStrip` membership-wise. -/
theorem mem_pyStrip (p : Char → Bool) (l : List Char) (c : Char)
    (hc : c ∈ pyStrip p l) : c ∈ l := by
  rcases dropWhile_suffix_eq p l with ⟨l1, hl1⟩
  rw [hl1]
  exact List.mem_append_right _ (mem_dropTrailing p _ c hc)

/-- The head of a `pyStrip` output is out of class. -/
theorem head?_pyStrip_not (p : Char → Bool) (l : List Char) (c : Char)
    (hc : (pyStrip p l).head? = some c) : p c = false :=
  head?_dropWhile_not p l c (head?_dropTrailing p _ c hc)

/-- The last element of a `pyStrip` output is out of class. -/
theorem getLast?_pyStrip_not (p : Char → Bool) (l : List Char) (c : Char)
    (hc : (pyStrip p l).getLast? = some c) : p c = false :=
  getLast?_dropTrailing p _ c hc

/-- `pyStrip` is the identity when both ends are out of class. -/
theorem pyStrip_eq_self (p : Char → Bool) (l : List Char)
    (hh : ∀ c, l.head? = some c → p c = false)
    (ht : ∀ c, l.getLast? = some c → p c = false) : pyStrip p l = l := by
  unfold pyStrip
  rw [dropWhile_eq_self p l hh]
  exact dropTrailing_eq_self p l ht

/-- A `Chain'` holds on a suffix. -/
theorem chain'_of_append_right {R : Char → Char → Prop} {l1 l2 : List Char}
    (h : List.Chain' R (l1 ++ l2)) : List.Chain' R l2 :=
  (List.chain'_append.mp h).2.1

/-- A `Chain'` holds on a prefix. -/
theorem chain'_of_append_left {R : Char → Char → Prop} {l1 l2 : List Char}
    (h : List.Chain' R (l1 ++ l2)) : List.Chain' R l1 :=
  (List.chain'_append.mp h).1

/-- `pyStrip` preserves any `Chain'`. -/
theorem chain'_pyStrip {R : Char → Char → Prop} (p : Char → Bool) (l : List Char)
    (h : List.Chain' R l) : List.Chain' R (pyStrip p l) := by
  have h1 : List.Chain' R (l.dropWhile p) := by
    rcases dropWhile_suffix_eq p l with ⟨l1, hl1⟩
    exact chain'_of_append_right (hl1 ▸ h)
  rcases dropTrailing_prefix p (l.dropWhile p) with ⟨l2, hl2⟩
  exact chain'_of_append_left (hl2 ▸ h1)

/-- Maps are the identity when the function fixes every member. -/
theorem map_eq_self_of {f : Char → Char} {l : List Char}
    (h : ∀ c ∈ l, f c = c) : l.map f = l := by
  induction l with
  | nil => rfl
  | cons a cs ih =>
    simp only [List.map_cons, h a (List.mem_cons_self _ _),
      ih (fun c hc => h c (List.mem_cons_of_mem _ hc))]

/-- flatMaps are the identity when the function is a singleton on every
member. -/
theorem flatMap_eq_self_of {f : Char → List Char} {l : List Char}
    (h : ∀ c ∈ l, f c = [c]) : l.flatMap f = l := by
  induction l with
  | nil => rfl
  | cons a cs ih =>
    rw [List.flatMap_cons, h a (List.mem_cons_self _ _),
      ih (fun c hc => h c (List.mem_cons_of_mem _ hc))]
    rfl

/-- Members of a `replaceChar` output. -/
theorem mem_replaceChar (a b : Char) (l : List Char) (c : Char)
    (hc : c ∈ replaceChar a b l) : c = b ∨ (c ∈ l ∧ c ≠ a) := by
  unfold replaceChar at hc
  rcases List.mem_map.mp hc with ⟨d, hd, hdc⟩
  by_cases h : d = a
  · rw [if_pos h] at hdc; exact Or.inl hdc.symm
  · rw [if_neg h] at hdc
    subst hdc
    exact Or.inr ⟨hd, h⟩

/-- Members of a `replaceSlash` output. -/
theorem mem_replaceSlash (l : List Char) (c : Char)
    (hc : c ∈ replaceSlash l) : c ∈ ['_', 't', 'o'] ∨ (c ∈ l ∧ c ≠ '/') := by
  unfold replaceSlash at hc
  rcases List.mem_flatMap.mp hc with ⟨d, hd, hdc⟩
  by_cases h : d = '/'
  · rw [if_pos h] at hdc
    left
    simp only [List.mem_cons, List.not_mem_nil, or_false] at hdc ⊢
    tauto
  · rw [if_neg h] at hdc
    simp at hdc
    subst hdc
    exact Or.inr ⟨hd, h⟩

/-- Members of a `removeParens` output. -/
theorem mem_removeParens (l : List Char) (c : Char)
    (hc : c ∈ removeParens l) : c ∈ l ∧ c ≠ '(' ∧ c ≠ ')' := by
  unfold removeParens at hc
  have := List.of_mem_filter hc
  simp at this
  exact ⟨List.mem_of_mem_filter hc, this.1, this.2⟩

/-- Members of a `replacePct` output. -/
theorem mem_replacePct (l : List Char) (c : Char)
    (hc : c ∈ replacePct l) : c ∈ ['p', 'c', 't'] ∨ (c ∈ l ∧ c ≠ '%') := by
  unfold replacePct at hc
  rcases List.mem_flatMap.mp hc with ⟨d, hd, hdc⟩
  by_cases h : d = '%'
  · rw [if_pos h] at hdc
    exact Or.inl hdc
  · rw [if_neg h] at hdc
    simp at hdc
    subst hdc
    exact Or.inr ⟨hd, h⟩

/-- Extract the individual facts of `preGood`. -/
theorem preGood_facts {c : Char} (h : preGood c = true) :
    isPyWs c = false ∧ c ≠ '–' ∧ c ≠ '—' ∧ c ≠ '/' ∧ c ≠ '(' ∧ c ≠ ')' ∧
      c ≠ '%' ∧ c ≠ '-' := by
  simp only [preGood, Bool.and_eq_true, Bool.not_eq_true'] at h
  obtain ⟨⟨⟨⟨⟨⟨⟨h1, h2⟩, h3⟩, h4⟩, h5⟩, h6⟩, h7⟩, h8⟩ := h
  exact ⟨h1, by simpa using h2, by simpa using h3, by simpa using h4,
    by simpa using h5, by simpa using h6, by simpa using h7, by simpa using h8⟩

/-- Characters in ASCII `a`-`z` are untouched by the rewriting stages. -/
theorem preGood_of_toNat (c : Char) (h1 : 97 ≤ c.toNat) (h2 : c.toNat ≤ 122) :
    preGood c = true := by
  have key : ∀ d : Char, ¬(97 ≤ d.toNat ∧ d.toNat ≤ 122) → (c == d) = false := by
    intro d hd
    apply beq_eq_false_iff_ne.mpr
    intro he
    subst he
    exact hd ⟨h1, h2⟩
  have hws : isPyWs c = false := by
    unfold isPyWs
    rw [key ' ' (by decide), key '\t' (by decide), key '\n' (by decide),
        key '\r' (by decide), key '\x0b' (by decide), key '\x0c' (by decide)]
    rfl
  unfold preGood
  rw [hws, key '–' (by decide), key '—' (by decide), key '/' (by decide),
      key '(' (by decide), key ')' (by decide), key '%' (by decide),
      key '-' (by decide)]
  rfl

/-- The underscore test commutes with lowercasing. -/
theorem isUnd_lowerChar (c : Char) : isUnd (lowerChar c) = isUnd c := by
  unfold isUnd
  by_cases h : c = '_'
  · subst h; rfl
  · have h2 : lowerChar c ≠ '_' := fun he => h ((lowerChar_und c).mp he)
    rw [beq_eq_false_iff_ne.mpr h2, beq_eq_false_iff_ne.mpr h]

/-- Every character of the pre-lowercase stages of `cleanChars` is
untouched by the rewriting stages. -/
theorem preGood_stages (l : List Char) :
    ∀ c ∈ collapseRuns isUnd '_'
        (collapseRuns (fun c => c == '-') '_'
          (collapseRuns isPyWs '_'
            (replacePct (removeParens (replaceSlash
              (replaceChar '—' '-' (replaceChar '–' '-' (pyStrip isPyWs l)))))))),
      preGood c = true := by
  intro c hc
  rcases mem_collapseRuns _ _ _ c hc with h | ⟨hc, _⟩
  · subst h; decide
  rcases mem_collapseRuns _ _ _ c hc with h | ⟨hc, hdash⟩
  · subst h; decide
  rcases mem_collapseRuns _ _ _ c hc with h | ⟨hc, hws⟩
  · subst h; decide
  rcases mem_replacePct _ c hc with h | ⟨hc, hpct⟩
  · have : c = 'p' ∨ c = 'c' ∨ c = 't' := by simpa using h
    rcases this with h | h | h
    all_goals subst h; decide
  rcases mem_removeParens _ c hc with ⟨hc, hpar1, hpar2⟩
  rcases mem_replaceSlash _ c hc with h | ⟨hc, hslash⟩
  · have : c = '_' ∨ c = 't' ∨ c = 'o' := by simpa using h
    rcases this with h | h | h
    all_goals subst h; decide
  rcases mem_replaceChar _ _ _ c hc with h | ⟨hc, hem⟩
  · subst h; simp at hdash
  rcases mem_replaceChar _ _ _ c hc with h | ⟨hc, hen⟩
  · subst h; simp at hdash
  simp only [preGood, Bool.and_eq_true, Bool.not_eq_true']
  exact ⟨⟨⟨⟨⟨⟨⟨hws, by simpa using hen⟩, by simpa using hem⟩,
    by simpa using hslash⟩, by simpa using hpar1⟩, by simpa using hpar2⟩,
    by simpa using hpct⟩, hdash⟩

/-- Every character of a `cleanChars` output is in normal form. -/
theorem goodChar_cleanChars (l : List Char) :
    ∀ c ∈ cleanChars l, goodChar c = true := by
  intro c hc
  unfold cleanChars at hc
  have hc9 := mem_pyStrip _ _ _ hc
  rcases List.mem_map.mp hc9 with ⟨d, hd, hdc⟩
  subst hdc
  have hupper := isUpperAZ_lowerChar d
  rcases lowerChar_eq_or d with heq | ⟨h97, h122⟩
  · have hpre := preGood_stages l d hd
    rw [heq] at hupper ⊢
    simp [goodChar, hpre, hupper]
  · have hpre := preGood_of_toNat _ h97 h122
    simp [goodChar, hpre, hupper]

/-- A `cleanChars` output has no two adjacent underscores. -/
theorem chain'_cleanChars (l : List Char) :
    List.Chain' (fun a b => ¬(isUnd a = true ∧ isUnd b = true)) (cleanChars l) := by
  unfold cleanChars
  apply chain'_pyStrip
  rw [List.chain'_map]
  apply List.Chain'.imp ?_ (chain'_collapseRuns isUnd '_' _)
  intro a b hab
  rw [isUnd_lowerChar, isUnd_lowerChar]
  exact hab

/-- A `cleanChars` output does not start with an underscore. -/
theorem head?_cleanChars (l : List Char) (c : Char)
    (h : (cleanChars l).head? = some c) : c ≠ '_' := by
  unfold cleanChars at h
  have := head?_pyStrip_not isUnd _ c h
  simpa [isUnd] using this

/-- A `cleanChars` output does not end with an underscore. -/
theorem getLast?_cleanChars (l : List Char) (c : Char)
    (h : (cleanChars l).getLast? = some c) : c ≠ '_' := by
  unfold cleanChars at h
  have := getLast?_pyStrip_not isUnd _ c h
  simpa [isUnd] using this

/-- Collapsing underscore runs is the identity on underscore-pair-free
input. -/
theorem collapseRuns_und_eq_self (l : List Char)
    (h : List.Chain' (fun a b => ¬(isUnd a = true ∧ isUnd b = true)) l) :
    collapseRuns isUnd '_' l = l := by
  induction l using collapseRuns.induct isUnd '_' with
  | case1 => rfl
  | case2 d =>
    simp only [collapseRuns]
    by_cases hd : isUnd d = true
    · rw [if_pos hd]
      have : d = '_' := by simpa [isUnd] using hd
      rw [this]
    · rw [if_neg hd]
  | case3 c1 c2 cs hp ih =>
    exfalso
    have hr := (List.chain'_cons.mp h).1
    simp only [Bool.and_eq_true] at hp
    exact hr ⟨hp.1, hp.2⟩
  | case4 c1 c2 cs hp ih =>
    simp only [collapseRuns]
    rw [if_neg hp, ih (List.chain'_cons.mp h).2]
    by_cases hc1 : isUnd c1 = true
    · have : c1 = '_' := by simpa [isUnd] using hc1
      rw [if_pos hc1, this]
    · rw [if_neg hc1]

/-- `cleanChars` is the identity on normal-form input. -/
theorem cleanChars_eq_self (l : List Char)
    (hg : ∀ c ∈ l, goodChar c = true)
    (hu : List.Chain' (fun a b => ¬(isUnd a = true ∧ isUnd b = true)) l)
    (hh : ∀ c, l.head? = some c → isUnd c = false)
    (ht : ∀ c, l.getLast? = some c → isUnd c = false) :
    cleanChars l = l := by
  have hgood : ∀ c ∈ l, preGood c = true ∧ isUpperAZ c = false := by
    intro c hc
    have := hg c hc
    simp only [goodChar, Bool.and_eq_true, Bool.not_eq_true'] at this
    exact this
  have h0 : pyStrip isPyWs l = l := by
    apply pyStrip_eq_self
    · intro c hc
      exact (preGood_facts (hgood c (List.mem_of_mem_head? (by rw [hc]; rfl))).1).1
    · intro c hc
      exact (preGood_facts (hgood c (mem_of_getLast?_eq hc)).1).1
  have e1 : replaceChar '–' '-' l = l := by
    unfold replaceChar
    apply map_eq_self_of
    intro c hc
    rw [if_neg (preGood_facts (hgood c hc).1).2.1]
  have e2 : replaceChar '—' '-' l = l := by
    unfold replaceChar
    apply map_eq_self_of
    intro c hc
    rw [if_neg (preGood_facts (hgood c hc).1).2.2.1]
  have e3 : replaceSlash l = l := by
    unfold replaceSlash
    apply flatMap_eq_self_of
    intro c hc
    rw [if_neg (preGood_facts (hgood c hc).1).2.2.2.1]
  have e4 : removeParens l = l := by
    unfold removeParens
    apply List.filter_eq_self.mpr
    intro c hc
    have hf := preGood_facts (hgood c hc).1
    simp [hf.2.2.2.2.1, hf.2.2.2.2.2.1]
  have e5 : replacePct l = l := by
    unfold replacePct
    apply flatMap_eq_self_of
    intro c hc
    rw [if_neg (preGood_facts (hgood c hc).1).2.2.2.2.2.2.1]
  have e6 : collapseRuns isPyWs '_' l = l := by
    apply collapseRuns_eq_self
    intro c hc
    exact (preGood_facts (hgood c hc).1).1
  have e7 : collapseRuns (fun c => c == '-') '_' l = l := by
    apply collapseRuns_eq_self
    intro c hc
    simpa using (preGood_facts (hgood c hc).1).2.2.2.2.2.2.2
  have e8 : collapseRuns isUnd '_' l = l := collapseRuns_und_eq_self l hu
  have e9 : l.map lowerChar = l := by
    apply map_eq_self_of
    intro c hc
    unfold lowerChar
    rw [if_neg (by simp [(hgood c hc).2])]
  unfold cleanChars
  rw [h0, e1, e2, e3, e4, e5, e6, e7, e8, e9]
  exact pyStrip_eq_self isUnd l hh ht

/-- `cleanChars` is idempotent. -/
theorem cleanChars_idem (l : List Char) :
    cleanChars (cleanChars l) = cleanChars l := by
  apply cleanChars_eq_self
  · exact goodChar_cleanChars l
  · exact chain'_cleanChars l
  · intro c hc
    simpa [isUnd] using head?_cleanChars l c hc
  · intro c hc
    simpa [isUnd] using getLast?_cleanChars l c hc

end CleanColnameLemmas

section ParseYearLemmas

/-! ### Lemmas on `parse_year` -/

/-- Bounds of an ASCII digit. -/
theorem isDig_bounds {c : Char} (h : isDig c = true) :
    48 ≤ c.toNat ∧ c.toNat ≤ 57 := by
  simpa [isDig] using h

/-- A matched window has value between 1900 and 2099. -/
theorem yearVal_bounds {c1 c2 c3 c4 : Char} (h : yearPat c1 c2 c3 c4 = true) :
    1900 ≤ yearVal c1 c2 c3 c4 ∧ yearVal c1 c2 c3 c4 ≤ 2099 := by
  simp only [yearPat, Bool.and_eq_true, Bool.or_eq_true, beq_iff_eq] at h
  obtain ⟨⟨h12, h3⟩, h4⟩ := h
  have b3 := isDig_bounds h3
  have b4 := isDig_bounds h4
  rcases h12 with ⟨e1, e2⟩ | ⟨e1, e2⟩ <;> subst e1 <;> subst e2 <;>
    unfold yearVal digVal
  · rw [show ('1' : Char).toNat = 49 from by decide,
        show ('9' : Char).toNat = 57 from by decide]
    omega
  · rw [show ('2' : Char).toNat = 50 from by decide,
        show ('0' : Char).toNat = 48 from by decide]
    omega

/-- The window at position 0 of a long-enough list. -/
theorem yearAt_zero_cons (c1 c2 c3 c4 : Char) (rest : List Char) :
    yearAt (c1 :: c2 :: c3 :: c4 :: rest) 0 =
      if yearPat c1 c2 c3 c4 then some (yearVal c1 c2 c3 c4) else none := rfl

/-- Lists with no four-element prefix are short. -/
theorem length_lt_of_noshape {l : List Char}
    (hshape : ∀ (c1 c2 c3 c4 : Char) (rest : List Char),
      l = c1 :: c2 :: c3 :: c4 :: rest → False) :
    l.length < 4 := by
  rcases l with _ | ⟨a, _ | ⟨b, _ | ⟨c, _ | ⟨d, t⟩⟩⟩⟩
  · simp
  · simp
  · simp
  · simp
  · exact (hshape a b c d t rfl).elim

/-- `findYear` fails on short lists. -/
theorem findYear_short (l : List Char) (h : l.length < 4) : findYear l = none := by
  rcases l with _ | ⟨a, _ | ⟨b, _ | ⟨c, _ | ⟨d, t⟩⟩⟩⟩
  · rfl
  · rfl
  · rfl
  · rfl
  · simp at h
    omega

/-- Shifting the position across a cons. -/
theorem yearAt_succ_cons (c : Char) (l : List Char) (i : Nat) :
    yearAt (c :: l) (i + 1) = yearAt l i := by
  unfold yearAt
  rw [List.drop_succ_cons]

/-- Lists shorter than the window never match. -/
theorem yearAt_short (l : List Char) (hl : l.length < 4) (i : Nat) :
    yearAt l i = none := by
  have hd : (l.drop i).length < 4 := by
    rw [List.length_drop]
    omega
  unfold yearAt
  rcases hld : l.drop i with _ | ⟨a, _ | ⟨b, _ | ⟨c, _ | ⟨d, t⟩⟩⟩⟩
  · rfl
  · rfl
  · rfl
  · rfl
  · rw [hld] at hd
    simp at hd
    omega

/-- `findYear` values are between 1900 and 2099. -/
theorem findYear_bounds (l : List Char) (n : Nat) (h : findYear l = some n) :
    1900 ≤ n ∧ n ≤ 2099 := by
  induction l using findYear.induct with
  | case1 c1 c2 c3 c4 rest hpat =>
    rw [findYear, if_pos hpat] at h
    injection h with h
    subst h
    exact yearVal_bounds hpat
  | case2 c1 c2 c3 c4 rest hpat ih =>
    rw [findYear, if_neg hpat] at h
    exact ih h
  | case3 l hshape =>
    rw [findYear_short l (length_lt_of_noshape hshape)] at h
    exact absurd h (by simp)

/-- Soundness of `findYear`: a found year is a leftmost window match. -/
theorem findYear_some_spec (l : List Char) (n : Nat) (h : findYear l = some n) :
    ∃ i, yearAt l i = some n ∧ ∀ j < i, yearAt l j = none := by
  induction l using findYear.induct with
  | case1 c1 c2 c3 c4 rest hpat =>
    rw [findYear, if_pos hpat] at h
    injection h with h
    refine ⟨0, ?_, by omega⟩
    rw [yearAt_zero_cons, if_pos hpat, h]
  | case2 c1 c2 c3 c4 rest hpat ih =>
    rw [findYear, if_neg hpat] at h
    rcases ih h with ⟨i, hi, hj⟩
    refine ⟨i + 1, by rwa [yearAt_succ_cons], ?_⟩
    intro j hji
    cases j with
    | zero =>
      rw [yearAt_zero_cons, if_neg hpat]
    | succ j' =>
      rw [yearAt_succ_cons]
      exact hj j' (by omega)
  | case3 l hshape =>
    rw [findYear_short l (length_lt_of_noshape hshape)] at h
    exact absurd h (by simp)

/-- Completeness of `findYear`: no window matches when nothing is found. -/
theorem findYear_none_spec (l : List Char) (h : findYear l = none) :
    ∀ i, yearAt l i = none := by
  induction l using findYear.induct with
  | case1 c1 c2 c3 c4 rest hpat =>
    rw [findYear, if_pos hpat] at h
    simp at h
  | case2 c1 c2 c3 c4 rest hpat ih =>
    rw [findYear, if_neg hpat] at h
    intro i
    cases i with
    | zero =>
      rw [yearAt_zero_cons, if_neg hpat]
    | succ i' =>
      rw [yearAt_succ_cons]
      exact ih h i'
  | case3 l hshape =>
    intro i
    exact yearAt_short l (length_lt_of_noshape hshape) i

/-- `findYear` finds exactly the leftmost window match. -/
theorem findYear_eq_some_iff (l : List Char) (n : Nat) :
    findYear l = some n ↔
      ∃ i, yearAt l i = some n ∧ ∀ j < i, yearAt l j = none := by
  constructor
  · exact findYear_some_spec l n
  · rintro ⟨i, hi, hj⟩
    rcases hf : findYear l with _ | k
    · exact absurd (findYear_none_spec l hf i) (by simp [hi])
    · rcases findYear_some_spec l k hf with ⟨i', hi', hj'⟩
      rcases lt_trichotomy i i' with hlt | heq | hgt
      · exact absurd (hj' i hlt) (by simp [hi])
      · subst heq
        rw [hi] at hi'
        injection hi' with hk
        rw [hk]
      · exact absurd (hj i' hgt) (by simp [hi'])

/-- `findYear` fails exactly when no window matches. -/
theorem findYear_eq_none_iff (l : List Char) :
    findYear l = none ↔ ∀ i, yearAt l i = none := by
  constructor
  · exact findYear_none_spec l
  · intro h
    rcases hf : findYear l with _ | k
    · rfl
    · rcases findYear_some_spec l k hf with ⟨i, hi, _⟩
      exact absurd (h i) (by simp [hi])

end ParseYearLemmas

section DFLemmas

/-! ### Lemmas on the table model -/

/-- Unfolding a lookup on a cons. -/
theorem lookupCell_cons (kv : String × Cell) (r : Row) (c : String) :
    lookupCell (kv :: r) c = if kv.1 = c then kv.2 else lookupCell r c := rfl

/-- Looking up a key that the row does not carry reads NaN. -/
theorem lookupCell_not_mem {r : Row} {c : String} (h : c ∉ rowKeys r) :
    lookupCell r c = Cell.na := by
  induction r with
  | nil => rfl
  | cons kv rest ih =>
    simp only [rowKeys, List.map_cons, List.mem_cons] at h
    push_neg at h
    rw [lookupCell_cons, if_neg (fun he => h.1 he.symm)]
    exact ih (by simpa [rowKeys] using h.2)

/-- Lookup in an append resolves in the left part when it has the key. -/
theorem lookupCell_append_left {r1 : Row} (r2 : Row) {c : String}
    (h : c ∈ rowKeys r1) : lookupCell (r1 ++ r2) c = lookupCell r1 c := by
  induction r1 with
  | nil => simp [rowKeys] at h
  | cons kv rest ih =>
    by_cases he : kv.1 = c
    · rw [List.cons_append, lookupCell_cons, if_pos he, lookupCell_cons, if_pos he]
    · rw [List.cons_append, lookupCell_cons, if_neg he, lookupCell_cons, if_neg he]
      apply ih
      simp only [rowKeys, List.map_cons, List.mem_cons] at h
      rcases h with h | h
      · exact absurd h.symm he
      · simpa [rowKeys] using h

/-- Lookup in an append falls to the right part when the left lacks the
key. -/
theorem lookupCell_append_right {r1 : Row} (r2 : Row) {c : String}
    (h : c ∉ rowKeys r1) : lookupCell (r1 ++ r2) c = lookupCell r2 c := by
  induction r1 with
  | nil => rfl
  | cons kv rest ih =>
    simp only [rowKeys, List.map_cons, List.mem_cons] at h
    push_neg at h
    rw [List.cons_append, lookupCell_cons, if_neg (fun he => h.1 he.symm)]
    exact ih (by simpa [rowKeys] using h.2)

/-- Lookup in an append resolves in the left part whenever the right part
lacks the key. -/
theorem lookupCell_append_of_not_right {r2 : Row} (r1 : Row) {c : String}
    (h : c ∉ rowKeys r2) : lookupCell (r1 ++ r2) c = lookupCell r1 c := by
  by_cases h1 : c ∈ rowKeys r1
  · exact lookupCell_append_left r2 h1
  · rw [lookupCell_append_right r2 h1, lookupCell_not_mem h, lookupCell_not_mem h1]

/-- Renaming keys by `f` leaves a lookup unchanged when `f` neither
creates nor destroys the looked-up name. -/
theorem lookupCell_mapKeys {f : String → String} {c : String}
    (hf : ∀ k, f k = c ↔ k = c) (r : Row) :
    lookupCell (r.map (fun kv => (f kv.1, kv.2))) c = lookupCell r c := by
  induction r with
  | nil => rfl
  | cons kv rest ih =>
    by_cases he : kv.1 = c
    · rw [List.map_cons, lookupCell_cons, if_pos ((hf kv.1).mpr he),
        lookupCell_cons, if_pos he]
    · rw [List.map_cons, lookupCell_cons, if_neg (fun hc => he ((hf kv.1).mp hc)),
        lookupCell_cons, if_neg he]
      exact ih

/-- Lookup in a projected row agrees with the source row on projected
columns. -/
theorem lookupCell_proj {cs : List String} {c : String} (r : Row)
    (hc : c ∈ cs) :
    lookupCell (cs.map (fun x => (x, lookupCell r x))) c = lookupCell r c := by
  induction cs with
  | nil => simp at hc
  | cons x xs ih =>
    by_cases he : x = c
    · subst he
      rw [List.map_cons, lookupCell_cons, if_pos rfl]
    · rw [List.map_cons, lookupCell_cons, if_neg he]
      apply ih
      rcases List.mem_cons.mp hc with h | h
      · exact absurd h.symm he
      · exact h

/-- Lookup survives dropping other keys. -/
theorem lookupCell_filter_keys {ds : List String} {c : String} (r : Row)
    (hc : ds.contains c = false) :
    lookupCell (r.filter (fun kv => !ds.contains kv.1)) c = lookupCell r c := by
  induction r with
  | nil => rfl
  | cons kv rest ih =>
    rw [List.filter_cons]
    by_cases hd : ds.contains kv.1 = true
    · rw [if_neg (by simp only [hd, Bool.not_true]; exact Bool.false_ne_true)]
      have hne : kv.1 ≠ c := fun he => by
        rw [he, hc] at hd
        exact Bool.false_ne_true hd
      rw [lookupCell_cons, if_neg hne]
      exact ih
    · have hd' : ds.contains kv.1 = false := Bool.eq_false_iff.mpr hd
      rw [if_pos (by simp only [hd', Bool.not_false])]
      by_cases he : kv.1 = c
      · rw [lookupCell_cons, if_pos he, lookupCell_cons, if_pos he]
      · rw [lookupCell_cons, if_neg he, lookupCell_cons, if_neg he]
        exact ih

/-- Mapping the values of column `c` maps the lookup at `c`, provided the
map fixes NaN (the missing-key default). -/
theorem lookupCell_mapColRow {g : Cell → Cell} (hg : g Cell.na = Cell.na)
    (c : String) (r : Row) :
    lookupCell (r.map (fun kv => if kv.1 = c then (kv.1, g kv.2) else kv)) c =
      g (lookupCell r c) := by
  induction r with
  | nil => simpa [lookupCell] using hg.symm
  | cons kv rest ih =>
    by_cases he : kv.1 = c
    · rw [List.map_cons, if_pos he, lookupCell_cons, lookupCell_cons,
        if_pos he, if_pos he]
    · rw [List.map_cons, if_neg he, lookupCell_cons, lookupCell_cons,
        if_neg he, if_neg he]
      exact ih

/-- Mapping the values of column `c` leaves other lookups unchanged. -/
theorem lookupCell_mapColRow_other {g : Cell → Cell} {c d : String}
    (hcd : d ≠ c) (r : Row) :
    lookupCell (r.map (fun kv => if kv.1 = c then (kv.1, g kv.2) else kv)) d =
      lookupCell r d := by
  induction r with
  | nil => rfl
  | cons kv rest ih =>
    rw [List.map_cons]
    by_cases he : kv.1 = c
    · have hd : kv.1 ≠ d := fun h => by
        subst h
        exact hcd he
      rw [if_pos he, lookupCell_cons, lookupCell_cons, if_neg hd, if_neg hd]
      exact ih
    · rw [if_neg he]
      by_cases hd : kv.1 = d
      · rw [lookupCell_cons, lookupCell_cons, if_pos hd, if_pos hd]
      · rw [lookupCell_cons, lookupCell_cons, if_neg hd, if_neg hd]
        exact ih

/-- Lookup in an all-NaN row is NaN. -/
theorem lookupCell_all_na (cs : List String) (c : String) :
    lookupCell (cs.map (fun x => (x, Cell.na))) c = Cell.na := by
  induction cs with
  | nil => rfl
  | cons x xs ih =>
    rw [List.map_cons, lookupCell]
    by_cases he : x = c
    · rw [if_pos he]
    · rw [if_neg he]
      exact ih

/-- Sorting permutes the years. -/
theorem yearsOf_sortReset (df : DF) :
    List.Perm (yearsOf (sortReset df)) (yearsOf df) :=
  (List.perm_insertionSort rowLe df.rows).map yearCell

/-- Sorting sorts by year. -/
theorem sorted_sortReset (df : DF) : List.Sorted rowLe (sortReset df).rows :=
  List.sorted_insertionSort rowLe df.rows

end DFLemmas

section LoadLemmas

/-! ### Lemmas on `load_csv` and its deduplication -/

/-- Deduplicated years are pairwise distinct and avoid the seen set. -/
theorem dedupYearAux_nodup (rows : List Row) (seen : List Cell) :
    ((dedupYearAux seen rows).map yearCell).Nodup ∧
      ∀ c ∈ (dedupYearAux seen rows).map yearCell, c ∉ seen := by
  induction rows generalizing seen with
  | nil => exact ⟨List.nodup_nil, by simp [dedupYearAux]⟩
  | cons r rs ih =>
    rw [dedupYearAux]
    by_cases hs : seen.contains (yearCell r) = true
    · rw [if_pos hs]
      exact ih seen
    · rw [if_neg hs]
      rcases ih (yearCell r :: seen) with ⟨hnd, hni⟩
      constructor
      · rw [List.map_cons, List.nodup_cons]
        exact ⟨fun hmem => (hni _ hmem) (List.mem_cons_self _ _), hnd⟩
      · intro c hc
        rw [List.map_cons, List.mem_cons] at hc
        rcases hc with hc | hc
        · subst hc
          intro hcs
          exact hs (List.elem_iff.mpr hcs)
        · intro hcs
          exact (hni c hc) (List.mem_cons_of_mem _ hcs)

/-- Deduplication selects a sublist. -/
theorem dedupYearAux_sublist (rows : List Row) (seen : List Cell) :
    List.Sublist (dedupYearAux seen rows) rows := by
  induction rows generalizing seen with
  | nil => exact List.Sublist.refl _
  | cons r rs ih =>
    rw [dedupYearAux]
    by_cases hs : seen.contains (yearCell r) = true
    · rw [if_pos hs]
      exact List.Sublist.cons r (ih seen)
    · rw [if_neg hs]
      exact List.Sublist.cons₂ r (ih _)

/-- The seen-set deduplication equals the specification's
keep-the-first-per-year reading, on the not-yet-seen rows. -/
theorem dedupYearAux_eq_keepFirst (rows : List Row) (seen : List Cell) :
    dedupYearAux seen rows =
      keepFirstByYear (rows.filter (fun r => !seen.contains (yearCell r))) := by
  induction rows generalizing seen with
  | nil => simp [dedupYearAux, List.filter_nil, keepFirstByYear]
  | cons r rs ih =>
    rw [dedupYearAux, List.filter_cons]
    by_cases hs : seen.contains (yearCell r) = true
    · rw [if_pos hs, if_neg (by rw [hs]; simp), ih seen]
    · have hs' : seen.contains (yearCell r) = false := Bool.eq_false_iff.mpr hs
      rw [if_neg hs, if_pos (by rw [hs']; rfl), keepFirstByYear, List.filter_filter,
        ih (yearCell r :: seen)]
      refine congrArg (fun t => r :: keepFirstByYear t) ?_
      apply List.filter_congr
      intro x _
      rw [List.contains_cons]
      by_cases hx : yearCell x = yearCell r
      · simp [hx]
      · simp [hx, beq_eq_false_iff_ne.mpr hx]

/-- Members of the kept-first rows come from the input. -/
theorem keepFirstByYear_sublist (l : List Row) :
    List.Sublist (keepFirstByYear l) l := by
  induction l using keepFirstByYear.induct with
  | case1 => simp [keepFirstByYear]
  | case2 r rs ih =>
    rw [keepFirstByYear]
    exact List.Sublist.cons₂ r (List.Sublist.trans ih (List.filter_sublist rs))

/-- The kept-first rows have pairwise distinct years. -/
theorem keepFirstByYear_years_nodup (l : List Row) :
    ((keepFirstByYear l).map yearCell).Nodup := by
  induction l using keepFirstByYear.induct with
  | case1 => simp [keepFirstByYear]
  | case2 r rs ih =>
    rw [keepFirstByYear, List.map_cons, List.nodup_cons]
    refine ⟨fun hmem => ?_, ih⟩
    rcases List.mem_map.mp hmem with ⟨x, hx, hxy⟩
    have hx' := (keepFirstByYear_sublist _).mem hx
    have := List.of_mem_filter hx'
    simp at this
    exact this hxy

/-- `load_csv` keeps the column list. -/
theorem load_csv_cols (f : Option DF) (df : DF) (h : load_csv f = Except.ok df) :
    ∃ raw, f = some raw ∧ df.cols = raw.cols := by
  cases f with
  | none => simp [load_csv] at h
  | some raw =>
    refine ⟨raw, rfl, ?_⟩
    rw [load_csv] at h
    by_cases hy : raw.cols.contains "year" = true
    · rw [if_pos hy] at h
      by_cases hnd : (yearsOf (loadCoerce raw)).Nodup
      · rw [if_pos hnd] at h
        injection h with h
        subst h
        rfl
      · rw [if_neg hnd] at h
        injection h with h
        subst h
        rfl
    · rw [if_neg hy] at h
      simp at h

/-- `load_csv` guarantees pairwise distinct years. -/
theorem load_csv_nodup (f : Option DF) (df : DF) (h : load_csv f = Except.ok df) :
    (yearsOf df).Nodup := by
  cases f with
  | none => simp [load_csv] at h
  | some raw =>
    rw [load_csv] at h
    by_cases hy : raw.cols.contains "year" = true
    · rw [if_pos hy] at h
      by_cases hnd : (yearsOf (loadCoerce raw)).Nodup
      · rw [if_pos hnd] at h
        injection h with h
        subst h
        exact hnd
      · rw [if_neg hnd] at h
        injection h with h
        subst h
        exact (dedupYearAux_nodup _ []).1
    · rw [if_neg hy] at h
      simp at h

/-- A loaded table has a `year` column. -/
theorem load_csv_year_col (f : Option DF) (df : DF)
    (h : load_csv f = Except.ok df) : df.cols.contains "year" = true := by
  rcases load_csv_cols f df h with ⟨raw, hf, hcols⟩
  subst hf
  by_cases hy : raw.cols.contains "year" = true
  · rw [hcols]
    exact hy
  · rw [load_csv, if_neg hy] at h
    exact Except.noConfusion h

end LoadLemmas

section JoinLemmas

/-! ### Lemmas on the year-keyed left join -/

/-- No column name suffixed with `_lev` reads `year`. -/
theorem append_lev_ne_year (c : String) : c ++ "_lev" ≠ "year" := by
  intro h
  have hd : c.data ++ "_lev".data = "year".data := by
    rw [← String.data_append, h]
  rcases hld : c.data with _ | ⟨a, _ | ⟨b, _ | ⟨d, t⟩⟩⟩ <;> rw [hld] at hd
  · exact absurd hd (by decide)
  · injection hd with h1 h2
    exact absurd h2 (by decide)
  · injection hd with h1 h2
    injection h2 with h3 h4
    exact absurd h4 (by decide)
  · injection hd with h1 h2
    injection h2 with h3 h4
    injection h4 with h5 h6
    have hlen := congrArg List.length h6
    simp at hlen

/-- No column name suffixed with `_bc` reads `year`. -/
theorem append_bc_ne_year (c : String) : c ++ "_bc" ≠ "year" := by
  intro h
  have hd : c.data ++ "_bc".data = "year".data := by
    rw [← String.data_append, h]
  rcases hld : c.data with _ | ⟨a, _ | ⟨b, _ | ⟨d, t⟩⟩⟩ <;> rw [hld] at hd
  · exact absurd hd (by decide)
  · injection hd with h1 h2
    exact absurd h2 (by decide)
  · injection hd with h1 h2
    injection h2 with h3 h4
    exact absurd h4 (by decide)
  · injection hd with h1 h2
    injection h2 with h3 h4
    injection h4 with h5 h6
    have hlen := congrArg List.length h6
    simp at hlen

/-- Columns contributed by the right side of a join are never `year`. -/
theorem joinRightCols_ne_year (lcols rcols : List String) (suf : String)
    (hsuf : ∀ c, c ++ suf ≠ "year") :
    ∀ c ∈ joinRightCols lcols rcols suf, c ≠ "year" := by
  intro c hc
  unfold joinRightCols at hc
  rcases List.mem_map.mp hc with ⟨d, hd, hdc⟩
  have hdy : d ≠ "year" := by simpa using List.of_mem_filter hd
  by_cases h : lcols.contains d = true
  · rw [if_pos h] at hdc
    rw [← hdc]
    exact hsuf d
  · rw [if_neg h] at hdc
    rw [← hdc]
    exact hdy

/-- Keys of the all-NaN right part. -/
theorem rowKeys_nullRight (lcols rcols : List String) (suf : String) :
    rowKeys (nullRight lcols rcols suf) = joinRightCols lcols rcols suf := by
  unfold nullRight rowKeys
  rw [List.map_map,
    show (Prod.fst ∘ fun c => (c, Cell.na)) = @id String from rfl]
  exact List.map_id _

/-- Keys of the matched right part. -/
theorem rowKeys_matchRight (lcols rcols : List String) (suf : String) (rr : Row) :
    rowKeys (matchRight lcols rcols suf rr) = joinRightCols lcols rcols suf := by
  unfold matchRight rowKeys joinRightCols
  rw [List.map_map]
  rfl

/-- Keys of an appended row. -/
theorem rowKeys_append (r1 r2 : Row) :
    rowKeys (r1 ++ r2) = rowKeys r1 ++ rowKeys r2 := by
  unfold rowKeys
  exact List.map_append _ _ _

/-- `year` is not among the right-part keys. -/
theorem year_not_mem_joinRightCols (lcols rcols : List String) (suf : String)
    (hsuf : ∀ c, c ++ suf ≠ "year") :
    "year" ∉ joinRightCols lcols rcols suf := by
  intro hmem
  exact joinRightCols_ne_year lcols rcols suf hsuf _ hmem rfl

/-- The year of an extended row is the year of its left part, whenever the
extension carries no `year` key. -/
theorem yearCell_append_right_free (lr rp : Row) (h : "year" ∉ rowKeys rp) :
    yearCell (lr ++ rp) = yearCell lr :=
  lookupCell_append_of_not_right lr h

/-- A filter on a duplicate-free key list yields nothing or one row. -/
theorem filter_year_singleton (rrows : List Row)
    (hn : (rrows.map yearCell).Nodup) (y : Cell) :
    rrows.filter (fun rr => yearCell rr = y) = [] ∨
      ∃ rr, rrows.filter (fun rr => yearCell rr = y) = [rr] := by
  induction rrows with
  | nil => exact Or.inl rfl
  | cons r rs ih =>
    rw [List.map_cons, List.nodup_cons] at hn
    rw [List.filter_cons]
    by_cases hy : yearCell r = y
    · rw [if_pos (by simpa using hy)]
      right
      refine ⟨r, ?_⟩
      have hnil : rs.filter (fun rr => yearCell rr = y) = [] := by
        rw [List.filter_eq_nil_iff]
        intro x hx hxy
        apply hn.1
        refine List.mem_map.mpr ⟨x, hx, ?_⟩
        rw [← hy] at hxy
        simpa using hxy
      rw [hnil]
    · rw [if_neg (by simpa using hy)]
      exact ih hn.2

/-- Left-joining a duplicate-free right table preserves the year column
verbatim. -/
theorem leftJoin_years (l r : DF) (suf : String)
    (hsuf : ∀ c, c ++ suf ≠ "year") (hn : (yearsOf r).Nodup) :
    yearsOf (leftJoinYear l r suf) = yearsOf l := by
  have hnull : "year" ∉ rowKeys (nullRight l.cols r.cols suf) := by
    rw [rowKeys_nullRight]
    exact year_not_mem_joinRightCols _ _ _ hsuf
  have hmatch : ∀ rr, "year" ∉ rowKeys (matchRight l.cols r.cols suf rr) := by
    intro rr
    rw [rowKeys_matchRight]
    exact year_not_mem_joinRightCols _ _ _ hsuf
  show ((leftJoinYear l r suf).rows.map yearCell) = l.rows.map yearCell
  unfold leftJoinYear
  simp only
  generalize l.rows = rows
  induction rows with
  | nil => rfl
  | cons lr rest ih =>
    rw [List.flatMap_cons, List.map_append, ih]
    have hB : List.map yearCell
        (if (r.rows.filter (fun rr => yearCell rr = yearCell lr)).isEmpty
         then [lr ++ nullRight l.cols r.cols suf]
         else (r.rows.filter (fun rr => yearCell rr = yearCell lr)).map
           (fun rr => lr ++ matchRight l.cols r.cols suf rr)) =
        [yearCell lr] := by
      rcases filter_year_singleton r.rows hn (yearCell lr) with hnil | ⟨rr, hone⟩
      · rw [hnil]
        simp only [List.isEmpty_nil, if_true, List.map_cons, List.map_nil]
        rw [yearCell_append_right_free _ _ hnull]
      · rw [hone]
        simp only [List.isEmpty_cons, Bool.false_eq_true, if_false,
          List.map_cons, List.map_nil]
        rw [yearCell_append_right_free _ _ (hmatch rr)]
    rw [hB]
    rfl

/-- Shape of the joined rows: every output row extends a left row by a
right part keyed with the suffixed right columns, all NaN when the year
finds no partner. -/
theorem leftJoin_rows_shape (l r : DF) (suf : String) :
    ∀ m ∈ (leftJoinYear l r suf).rows, ∃ lr ∈ l.rows, ∃ rp : Row,
      m = lr ++ rp ∧ rowKeys rp = joinRightCols l.cols r.cols suf ∧
      (yearCell lr ∉ yearsOf r → rp = nullRight l.cols r.cols suf) := by
  intro m hm
  unfold leftJoinYear at hm
  simp only at hm
  rcases List.mem_flatMap.mp hm with ⟨lr, hlr, hin⟩
  by_cases he : (r.rows.filter (fun rr => yearCell rr = yearCell lr)).isEmpty = true
  · rw [if_pos he] at hin
    rw [List.mem_singleton] at hin
    subst hin
    exact ⟨lr, hlr, nullRight l.cols r.cols suf, rfl,
      rowKeys_nullRight l.cols r.cols suf, fun _ => rfl⟩
  · rw [if_neg he] at hin
    rcases List.mem_map.mp hin with ⟨rr, hrr, hmr⟩
    subst hmr
    refine ⟨lr, hlr, matchRight l.cols r.cols suf rr, rfl,
      rowKeys_matchRight l.cols r.cols suf rr, ?_⟩
    intro hy
    exfalso
    have h1 : yearCell rr = yearCell lr := by
      simpa using List.of_mem_filter hrr
    exact hy (List.mem_map.mpr ⟨rr, List.mem_of_mem_filter hrr, h1⟩)

/-- The master panel carries exactly the balance-sheet years (as a
multiset) when the leverage and business-cycle inputs have unique years. -/
theorem merge_years (bs lev bc : DF)
    (hnl : (yearsOf lev).Nodup) (hnb : (yearsOf bc).Nodup) :
    List.Perm (yearsOf (merge_master_panel bs lev bc)) (yearsOf bs) := by
  unfold merge_master_panel
  refine (yearsOf_sortReset _).trans ?_
  rw [leftJoin_years _ bc "_bc" append_bc_ne_year hnb,
    leftJoin_years bs lev "_lev" append_lev_ne_year hnl]

end JoinLemmas

section ConsolidateLemmas

/-! ### Year preservation through consolidation and finalization -/

/-- A rename map whose pairs never mention `year` neither creates nor
destroys the `year` name. -/
theorem applyRename_year_iff (m : List (String × String))
    (hm : ∀ p ∈ m, p.2 ≠ "year" ∧ p.1 ≠ "year") :
    ∀ k, applyRename m k = "year" ↔ k = "year" := by
  intro k
  induction m with
  | nil => simp [applyRename]
  | cons p ps ih =>
    rw [applyRename]
    by_cases hk : p.1 = k
    · rw [if_pos hk]
      constructor
      · intro h
        exact absurd h (hm p (List.mem_cons_self _ _)).1
      · intro h
        exact absurd (hk.trans h) (hm p (List.mem_cons_self _ _)).2
    · rw [if_neg hk]
      exact ih (fun q hq => hm q (List.mem_cons_of_mem _ hq))

/-- Renaming columns by a year-preserving map keeps the year column. -/
theorem yearsOf_renameCols {f : String → String}
    (hf : ∀ k, f k = "year" ↔ k = "year") (df : DF) :
    yearsOf (renameCols f df) = yearsOf df := by
  unfold yearsOf renameCols yearCell
  simp only [List.map_map]
  apply List.map_congr_left
  intro r _
  exact lookupCell_mapKeys hf r

/-- Dropping non-year columns keeps the year column. -/
theorem yearsOf_dropColumns {ds : List String}
    (hc : ds.contains "year" = false) (df : DF) :
    yearsOf (dropColumns ds df) = yearsOf df := by
  unfold yearsOf dropColumns yearCell
  simp only [List.map_map]
  apply List.map_congr_left
  intro r _
  exact lookupCell_filter_keys r hc

/-- Selecting a column list that includes `year` keeps the year column. -/
theorem yearsOf_selectCols {cs : List String} (hy : "year" ∈ cs) (df : DF) :
    yearsOf (selectCols cs df) = yearsOf df := by
  unfold yearsOf selectCols yearCell
  simp only [List.map_map]
  apply List.map_congr_left
  intro r _
  exact lookupCell_proj r hy

/-- Coercing a non-year column keeps the year column. -/
theorem yearsOf_mapCol {c : String} (hc : c ≠ "year") (g : Cell → Cell) (df : DF) :
    yearsOf (mapCol c g df) = yearsOf df := by
  unfold yearsOf mapCol yearCell
  simp only [List.map_map]
  apply List.map_congr_left
  intro r _
  exact lookupCell_mapColRow_other (fun h => hc h.symm) r

/-- The `key_numeric` coercion loop of `finalize_dataset` keeps the column
list and the year column. -/
theorem foldl_mapCol_invariant (cs : List String)
    (hcs : ∀ c ∈ cs, c ≠ "year") (df : DF) :
    (cs.foldl (fun d c => if d.cols.contains c then mapCol c toNumeric d else d)
        df).cols = df.cols ∧
      yearsOf (cs.foldl
        (fun d c => if d.cols.contains c then mapCol c toNumeric d else d) df) =
        yearsOf df := by
  induction cs generalizing df with
  | nil => exact ⟨rfl, rfl⟩
  | cons c cs ih =>
    rw [List.foldl_cons]
    by_cases hc : df.cols.contains c = true
    · rw [if_pos hc]
      rcases ih (fun x hx => hcs x (List.mem_cons_of_mem _ hx))
        (mapCol c toNumeric df) with ⟨h1, h2⟩
      refine ⟨by rw [h1]; rfl, ?_⟩
      rw [h2]
      exact yearsOf_mapCol (hcs c (List.mem_cons_self _ _)) toNumeric df
    · rw [if_neg hc]
      exact ih (fun x hx => hcs x (List.mem_cons_of_mem _ hx)) df

/-- `year` survives into the consolidated front column list. -/
theorem year_mem_front (cols2 : List String) (hy : cols2.contains "year" = true) :
    "year" ∈ consolidatedFront.filter (fun c => cols2.contains c) := by
  apply List.mem_filter.mpr
  exact ⟨by decide, hy⟩

/-- Consolidation permutes the years (it only renames `period`, drops
non-year columns, reorders columns, and sorts). -/
theorem build_consolidated_years (master : DF)
    (hy : master.cols.contains "year" = true) :
    List.Perm (yearsOf (build_consolidated_panel master)) (yearsOf master) := by
  unfold build_consolidated_panel
  refine (yearsOf_sortReset _).trans ?_
  set d1 := if master.cols.contains "period"
            then renameCols (applyRename [("period", "period_label")]) master
            else master with hd1
  have hy1 : d1.cols.contains "year" = true := by
    rw [hd1]
    by_cases hp : master.cols.contains "period" = true
    · rw [if_pos hp]
      show (master.cols.map _).contains "year" = true
      apply List.elem_iff.mpr
      refine List.mem_map.mpr ⟨"year", List.elem_iff.mp hy, rfl⟩
    · rw [if_neg hp]
      exact hy
  have hyears1 : yearsOf d1 = yearsOf master := by
    rw [hd1]
    by_cases hp : master.cols.contains "period" = true
    · rw [if_pos hp]
      exact yearsOf_renameCols
        (applyRename_year_iff _ (by decide)) master
    · rw [if_neg hp]
  set ds := consolidatedDropList.filter (fun c => d1.cols.contains c) with hds
  have hdsy : ds.contains "year" = false := by
    apply Bool.eq_false_iff.mpr
    intro hmem
    have := List.mem_of_mem_filter (List.elem_iff.mp hmem)
    exact absurd this (by decide)
  have hy2 : (dropColumns ds d1).cols.contains "year" = true := by
    show (d1.cols.filter _).contains "year" = true
    apply List.elem_iff.mpr
    apply List.mem_filter.mpr
    exact ⟨List.elem_iff.mp hy1, by rw [hdsy]; rfl⟩
  have hfront : "year" ∈
      consolidatedFront.filter (fun c => (dropColumns ds d1).cols.contains c) ++
        (dropColumns ds d1).cols.filter
          (fun c => !(consolidatedFront.filter
            (fun c2 => (dropColumns ds d1).cols.contains c2)).contains c) :=
    List.mem_append_left _ (year_mem_front _ hy2)
  rw [yearsOf_selectCols hfront, yearsOf_dropColumns hdsy, hyears1]

/-- Finalization raises exactly on duplicate years. -/
theorem finalize_error_iff (c : DF) :
    (∃ e, finalize_dataset c = Except.error e) ↔ ¬(yearsOf c).Nodup := by
  unfold finalize_dataset
  by_cases hn : (yearsOf c).Nodup
  · rw [if_pos hn]
    simp [hn]
  · rw [if_neg hn]
    simp [hn]

/-- Finalization permutes the years. -/
theorem finalize_years (c : DF) (hy : c.cols.contains "year" = true) (d : DF)
    (h : finalize_dataset c = Except.ok d) :
    List.Perm (yearsOf d) (yearsOf c) := by
  unfold finalize_dataset at h
  by_cases hn : (yearsOf c).Nodup
  · rw [if_pos hn] at h
    injection h with h
    subst h
    refine (yearsOf_sortReset _).trans ?_
    rcases foldl_mapCol_invariant keyNumericCols (by decide) c with ⟨h1, h2⟩
    have hfront : "year" ∈
        consolidatedFront.filter (fun x =>
          (keyNumericCols.foldl
            (fun d c => if d.cols.contains c then mapCol c toNumeric d else d)
            c).cols.contains x) := by
      apply year_mem_front
      rw [h1]
      exact hy
    rw [yearsOf_selectCols (List.mem_append_left _ hfront), h2]
  · rw [if_neg hn] at h
    exact absurd h (by simp)

end ConsolidateLemmas

-- sanity examples (concrete evaluation of the embedding)
example : clean_colname "  Log GDP (%) / Total  " = "log_gdp_pct_to_total" := by decide
example : clean_colname "Capital–Surplus  Ratio" = "capital_surplus_ratio" := by decide
example : parse_year (Cell.str "FY 2004-05") = some 2004 := by decide
example : parse_year (Cell.str "no year here") = none := by decide
example : parse_year (Cell.int 1997) = some 1997 := by decide
example : parse_year Cell.na = none := by decide
example : toNumeric (Cell.str "2005") = Cell.int 2005 := by decide
example : toNumeric (Cell.str "abc") = Cell.na := by decide

section BalanceSheetLemmas

/-! ### Lemmas for `standardize_balance_sheet` and `parse_year` at the
cell level -/

/-- Keys of a key-renamed row. -/
theorem rowKeys_mapKeys (f : String → String) (r : Row) :
    rowKeys (r.map (fun kv => (f kv.1, kv.2))) = (rowKeys r).map f := by
  unfold rowKeys
  rw [List.map_map, List.map_map]
  rfl

/-- Overwriting the values at key `c` sets the lookup at `c`, provided the
row carries the key. -/
theorem lookupCell_setCol {c : String} {v : Cell} (r : Row) (h : c ∈ rowKeys r) :
    lookupCell (r.map (fun kv => if kv.1 = c then (kv.1, v) else kv)) c = v := by
  induction r with
  | nil => simp [rowKeys] at h
  | cons kv rest ih =>
    rw [List.map_cons]
    by_cases he : kv.1 = c
    · rw [if_pos he, lookupCell_cons, if_pos he]
    · rw [if_neg he, lookupCell_cons, if_neg he]
      apply ih
      simp only [rowKeys, List.map_cons, List.mem_cons] at h
      rcases h with h | h
      · exact absurd h.symm he
      · simpa [rowKeys] using h

/-- The year column produced by the `year` assignment followed by the typo
rename is exactly the assigned value, row by row. -/
theorem yearsOf_assign_typos (d1 : DF) (F : Row → Cell)
    (hwf1 : ∀ r ∈ d1.rows, rowKeys r = d1.cols) :
    (renameCols (applyRename typoFixes) (assignCol "year" F d1)).rows.map yearCell =
      d1.rows.map F := by
  unfold renameCols assignCol
  by_cases hy : d1.cols.contains "year" = true
  · rw [if_pos hy]
    simp only [List.map_map]
    apply List.map_congr_left
    intro r hr
    show yearCell ((r.map (fun kv => if kv.1 = "year" then (kv.1, F r) else kv)).map
      (fun kv => (applyRename typoFixes kv.1, kv.2))) = F r
    unfold yearCell
    rw [lookupCell_mapKeys (applyRename_year_iff typoFixes (by decide))]
    apply lookupCell_setCol
    rw [hwf1 r hr]
    exact List.elem_iff.mp hy
  · rw [if_neg hy]
    simp only [List.map_map]
    apply List.map_congr_left
    intro r hr
    show yearCell ((r ++ [("year", F r)]).map
      (fun kv => (applyRename typoFixes kv.1, kv.2))) = F r
    unfold yearCell
    rw [lookupCell_mapKeys (applyRename_year_iff typoFixes (by decide))]
    rw [lookupCell_append_right _ (by
      rw [hwf1 r hr]
      intro hmem
      exact hy (List.elem_iff.mpr hmem))]
    rfl

/-- Filtering out missing years commutes with reading the year column. -/
theorem map_filter_year (l : List Row) :
    (l.filter (fun r => yearCell r ≠ Cell.na)).map yearCell =
      (l.map yearCell).filter (fun c => c ≠ Cell.na) := by
  induction l with
  | nil => rfl
  | cons r rs ih =>
    rw [List.map_cons, List.filter_cons, List.filter_cons]
    by_cases hr : yearCell r = Cell.na
    · rw [if_neg (by simp [hr]), if_neg (by simp [hr])]
      exact ih
    · rw [if_pos (by simpa using hr), if_pos (by simpa using hr), List.map_cons, ih]

/-- Packing optional years into cells and dropping the missing ones is the
`filterMap`. -/
theorem filter_cellOfYear (g : Row → Option Int) (l : List Row) :
    (l.map (fun r => cellOfYear (g r))).filter (fun c => c ≠ Cell.na) =
      (l.filterMap g).map Cell.int := by
  induction l with
  | nil => rfl
  | cons r rs ih =>
    rw [List.map_cons, List.filter_cons, List.filterMap_cons]
    cases hg : g r with
    | none =>
      rw [if_neg (by simp [cellOfYear])]
      show _ = List.map Cell.int (List.filterMap g rs)
      exact ih
    | some n =>
      rw [if_pos (by simp [cellOfYear])]
      show _ = List.map Cell.int (n :: List.filterMap g rs)
      rw [List.map_cons]
      exact congrArg (List.cons (Cell.int n)) ih

/-- On non-missing cells `parse_year` is the string search. -/
theorem parse_year_eq (v : Cell) (hv : v ≠ Cell.na) :
    parse_year v = (findYear (cellStr v).data).map (fun n => (n : Int)) := by
  cases v with
  | na => exact absurd rfl hv
  | int m => rfl
  | str s => rfl

/-- `parse_year` only returns years between 1900 and 2099. -/
theorem parse_year_bounds (v : Cell) (n : Int) (h : parse_year v = some n) :
    1900 ≤ n ∧ n ≤ 2099 := by
  by_cases hv : v = Cell.na
  · subst hv
    simp [parse_year] at h
  · rw [parse_year_eq v hv] at h
    cases hfy : findYear (cellStr v).data with
    | none =>
      rw [hfy] at h
      exact Option.noConfusion h
    | some k =>
      rw [hfy] at h
      simp at h
      have hb := findYear_bounds _ _ hfy
      omega

/-- The year column of the standardized balance sheet is, up to the sort,
exactly the successfully parsed `period` values of the cleaned sheet. -/
theorem bal_sheet_years (df : DF)
    (hwf : ∀ r ∈ df.rows, rowKeys r = df.cols)
    (hp : (renameCols clean_colname df).cols.contains "period" = true) :
    List.Perm (yearsOf (standardize_balance_sheet df))
      (((renameCols clean_colname df).rows.filterMap
        (fun r => parse_year (lookupCell r "period"))).map Cell.int) := by
  have hwf1 : ∀ r ∈ (renameCols clean_colname df).rows,
      rowKeys r = (renameCols clean_colname df).cols := by
    intro r hr
    rcases List.mem_map.mp hr with ⟨r0, hr0, hmk⟩
    subst hmk
    show rowKeys (r0.map _) = df.cols.map clean_colname
    rw [rowKeys_mapKeys, hwf r0 hr0]
  simp only [standardize_balance_sheet]
  rw [if_pos hp]
  refine (yearsOf_sortReset _).trans ?_
  show List.Perm ((List.filter _ _).map yearCell) _
  rw [map_filter_year, yearsOf_assign_typos _ _ hwf1, filter_cellOfYear]

end BalanceSheetLemmas

section AnalysisLemmas

/-! ### Lemmas on the regression call construction -/

/-- Membership in a successful `Except` traversal. -/
theorem mapM_ok_mem {α β : Type} (g : α → Except ETLError β) :
    ∀ (l : List α) (out : List β), l.mapM g = Except.ok out →
      ∀ b ∈ out, ∃ a ∈ l, g a = Except.ok b := by
  intro l
  induction l with
  | nil =>
    intro out h b hb
    have h' : Except.ok ([] : List β) = Except.ok out := h
    injection h' with h'
    subst h'
    simp at hb
  | cons a as ih =>
    intro out h b hb
    rw [List.mapM_cons] at h
    cases hga : g a with
    | error e =>
      rw [hga] at h
      have h' : (Except.error e : Except ETLError (List β)) = Except.ok out := h
      exact Except.noConfusion h'
    | ok v =>
      rw [hga] at h
      cases hms : as.mapM g with
      | error e =>
        rw [hms] at h
        have h' : (Except.error e : Except ETLError (List β)) = Except.ok out := h
        exact Except.noConfusion h' 
      | ok vs =>
        rw [hms] at h
        have h' : Except.ok (v :: vs) = Except.ok out := h
        injection h' with h'
        subst h'
        rcases List.mem_cons.mp hb with hb | hb
        · subst hb
          exact ⟨a, List.mem_cons_self _ _, hga⟩
        · rcases ih vs hms b hb with ⟨a', ha', hga'⟩
          exact ⟨a', List.mem_cons_of_mem _ ha', hga'⟩

/-- The `dropna` row predicate, unpacked. -/
theorem rowOk_iff (yCol : String) (xCols : List String) (r : Row) :
    rowOk yCol xCols r = true ↔
      toNumeric (lookupCell r yCol) ≠ Cell.na ∧
        ∀ c ∈ xCols, toNumeric (lookupCell r c) ≠ Cell.na := by
  unfold rowOk
  simp

/-- What a successful `fit_ols` hands to the statistics library. -/
theorem fit_ols_ok (df : DF) (yCol : String) (xCols : List String)
    (covType : String) (call : OLSCall)
    (h : fit_ols df yCol xCols covType = Except.ok call) :
    call.covType = covType ∧
    call.xNames = "const" :: xCols ∧
    (∀ xr ∈ call.xRows, lookupCell xr "const" = Cell.int 1) ∧
    call.y = (df.rows.filter (rowOk yCol xCols)).map
      (fun r => toNumeric (lookupCell r yCol)) ∧
    call.xRows = (df.rows.filter (rowOk yCol xCols)).map
      (fun r => ("const", Cell.int 1) ::
        xCols.map (fun c => (c, toNumeric (lookupCell r c)))) := by
  unfold fit_ols at h
  split at h
  · split at h
    · injection h with h
      subst h
      refine ⟨rfl, rfl, ?_, rfl, rfl⟩
      intro xr hxr
      rcases List.mem_map.mp hxr with ⟨r, _, hr⟩
      rw [← hr]
      rfl
    · exact Except.noConfusion h
  · exact Except.noConfusion h

end AnalysisLemmas

section Claims

/-! ### The claims -/

/-- C1 (one row per year): `load_csv` outputs carry pairwise-distinct
years; a master panel merged from three loaded tables has pairwise
distinct years and `build_consolidated_panel` preserves that;
`finalize_dataset` raises `ValueError` exactly when its input (a panel
with a `year` column) duplicates a year, and otherwise returns a panel in
which every year occurs exactly once. -/
theorem C1_one_row_per_year :
    (∀ f df, load_csv f = Except.ok df → (yearsOf df).Nodup) ∧
    (∀ f1 f2 f3 bs lev bc,
      load_csv f1 = Except.ok bs → load_csv f2 = Except.ok lev →
        load_csv f3 = Except.ok bc →
        (yearsOf (merge_master_panel bs lev bc)).Nodup ∧
          (yearsOf (build_consolidated_panel (merge_master_panel bs lev bc))).Nodup) ∧
    (∀ c, (∃ e, finalize_dataset c = Except.error e) ↔ ¬(yearsOf c).Nodup) ∧
    (∀ c d, c.cols.contains "year" = true → finalize_dataset c = Except.ok d →
      (yearsOf d).Nodup) := by
  refine ⟨load_csv_nodup, ?_, finalize_error_iff, ?_⟩
  · intro f1 f2 f3 bs lev bc h1 h2 h3
    have hbs := load_csv_nodup _ _ h1
    have hperm := merge_years bs lev bc (load_csv_nodup _ _ h2) (load_csv_nodup _ _ h3)
    have hm : (yearsOf (merge_master_panel bs lev bc)).Nodup :=
      hperm.nodup_iff.mpr hbs
    refine ⟨hm, ?_⟩
    have hyc : (merge_master_panel bs lev bc).cols.contains "year" = true := by
      apply List.elem_iff.mpr
      show "year" ∈ (bs.cols ++ _) ++ _
      exact List.mem_append_left _
        (List.mem_append_left _ (List.elem_iff.mp (load_csv_year_col _ _ h1)))
    exact ((build_consolidated_years _ hyc).nodup_iff).mpr hm
  · intro c d hy h
    by_cases hn : (yearsOf c).Nodup
    · exact ((finalize_years c hy d h).nodup_iff).mpr hn
    · rw [finalize_dataset, if_neg hn] at h
      exact Except.noConfusion h

/-- Concrete instance of C1. -/
theorem C1_one_row_per_year_witness :
    (yearsOf (merge_master_panel wBS wLev wBC)).Nodup ∧
    (∃ e, finalize_dataset wDup = Except.error e) ∧
    (yearsOf (build_consolidated_panel (merge_master_panel wBS wLev wBC))).Nodup :=
  ⟨(C1_one_row_per_year.2.1 (some wBS) (some wLev) (some wBC) wBS wLev wBC
      (by decide) (by decide) (by decide)).1,
   (C1_one_row_per_year.2.2.1 wDup).mpr (by decide),
   (C1_one_row_per_year.2.1 (some wBS) (some wLev) (some wBC) wBS wLev wBC
      (by decide) (by decide) (by decide)).2⟩

/-- C4 (failure handling): `load_csv` raises `FileNotFoundError` exactly
when the file is missing, raises `KeyError` on an existing file exactly
when the table has no `year` column, and a raising `merge_master_panel`
run writes no output file. -/
theorem C4_raises_on_missing :
    (∀ f : Option DF,
      (∃ msg, load_csv f = Except.error (ETLError.fileNotFound msg)) ↔ f = none) ∧
    (∀ raw : DF,
      (∃ msg, load_csv (some raw) = Except.error (ETLError.keyError msg)) ↔
        raw.cols.contains "year" = false) ∧
    (∀ b l c, (∃ e, (merge_master_panel_run b l c).1 = Except.error e) →
      (merge_master_panel_run b l c).2 = []) := by
  have hok : ∀ raw : DF, raw.cols.contains "year" = true →
      ∃ df, load_csv (some raw) = Except.ok df := by
    intro raw hy
    rw [load_csv, if_pos hy]
    by_cases hn : (yearsOf (loadCoerce raw)).Nodup
    · exact ⟨_, by rw [if_pos hn]⟩
    · exact ⟨_, by rw [if_neg hn]⟩
  refine ⟨?_, ?_, ?_⟩
  · intro f
    constructor
    · rintro ⟨msg, hmsg⟩
      cases f with
      | none => rfl
      | some raw =>
        by_cases hy : raw.cols.contains "year" = true
        · rcases hok raw hy with ⟨df, hdf⟩
          rw [hdf] at hmsg
          exact Except.noConfusion hmsg
        · rw [load_csv, if_neg hy] at hmsg
          injection hmsg with hmsg
          exact ETLError.noConfusion hmsg
    · intro h
      subst h
      exact ⟨"File not found", rfl⟩
  · intro raw
    constructor
    · rintro ⟨msg, hmsg⟩
      by_cases hy : raw.cols.contains "year" = true
      · rcases hok raw hy with ⟨df, hdf⟩
        rw [hdf] at hmsg
        exact Except.noConfusion hmsg
      · exact Bool.eq_false_iff.mpr hy
    · intro hy
      rw [load_csv, if_neg (by rw [hy]; exact Bool.false_ne_true)]
      exact ⟨"Missing required column year", rfl⟩
  · intro b l c
    rintro ⟨e, he⟩
    unfold merge_master_panel_run at he ⊢
    cases hb : load_csv b with
    | error eb => rfl
    | ok bs =>
      rw [hb] at he
      cases hl : load_csv l with
      | error el => rfl
      | ok lev =>
        rw [hl] at he
        cases hc : load_csv c with
        | error ec => rfl
        | ok bc =>
          rw [hc] at he
          simp at he

/-- Concrete instance of C4. -/
theorem C4_raises_on_missing_witness :
    load_csv (some wNoYear) =
      Except.error (ETLError.keyError "Missing required column year") ∧
    (merge_master_panel_run none none none).2 = [] :=
  ⟨by decide,
   C4_raises_on_missing.2.2 none none none
     ⟨ETLError.fileNotFound "File not found", by decide⟩⟩

/-- C7 (determinism): every ETL transformation is a function of its
input: equal inputs give equal outputs. -/
theorem C7_determinism :
    (∀ a b : DF, a = b →
      standardize_business_cycle a = standardize_business_cycle b) ∧
    (∀ a b : DF, a = b → standardize_leverage a = standardize_leverage b) ∧
    (∀ a b : DF, a = b →
      standardize_balance_sheet a = standardize_balance_sheet b) ∧
    (∀ a b : Option DF, a = b → load_csv a = load_csv b) ∧
    (∀ a1 a2 a3 b1 b2 b3 : DF, a1 = b1 → a2 = b2 → a3 = b3 →
      merge_master_panel a1 a2 a3 = merge_master_panel b1 b2 b3) ∧
    (∀ a b : DF, a = b →
      build_consolidated_panel a = build_consolidated_panel b) ∧
    (∀ a b : DF, a = b → finalize_dataset a = finalize_dataset b) := by
  refine ⟨?_, ?_, ?_, ?_, ?_, ?_, ?_⟩
  · intro a b h; rw [h]
  · intro a b h; rw [h]
  · intro a b h; rw [h]
  · intro a b h; rw [h]
  · intro a1 a2 a3 b1 b2 b3 h1 h2 h3; rw [h1, h2, h3]
  · intro a b h; rw [h]
  · intro a b h; rw [h]

/-- Concrete instance of C7. -/
theorem C7_determinism_witness :
    standardize_balance_sheet wRawBS = standardize_balance_sheet wRawBS :=
  C7_determinism.2.2.1 wRawBS wRawBS rfl

/-- C10 (sorted by year): every table returned by the standardize steps,
by the merge, by the consolidation and by the finalization has its rows in
nondecreasing year order (`rowLe`); the 0..n-1 reset index is the list
position of the model. -/
theorem C10_sorted_by_year :
    (∀ df d, standardize_business_cycle df = Except.ok d →
      List.Sorted rowLe d.rows) ∧
    (∀ df d, standardize_leverage df = Except.ok d → List.Sorted rowLe d.rows) ∧
    (∀ df, List.Sorted rowLe (standardize_balance_sheet df).rows) ∧
    (∀ bs lev bc, List.Sorted rowLe (merge_master_panel bs lev bc).rows) ∧
    (∀ m, List.Sorted rowLe (build_consolidated_panel m).rows) ∧
    (∀ c d, finalize_dataset c = Except.ok d → List.Sorted rowLe d.rows) := by
  refine ⟨?_, ?_, ?_, ?_, ?_, ?_⟩
  · intro df d h
    simp only [standardize_business_cycle] at h
    split at h
    · split at h
      · split at h
        · injection h with h
          subst h
          exact sorted_sortReset _
        · exact Except.noConfusion h
      · exact Except.noConfusion h
    · exact Except.noConfusion h
  · intro df d h
    simp only [standardize_leverage] at h
    split at h
    · split at h
      · split at h
        · injection h with h
          subst h
          exact sorted_sortReset _
        · exact Except.noConfusion h
      · exact Except.noConfusion h
    · split at h
      · split at h
        · injection h with h
          subst h
          exact sorted_sortReset _
        · exact Except.noConfusion h
      · exact Except.noConfusion h
  · intro df
    unfold standardize_balance_sheet
    exact sorted_sortReset _
  · intro bs lev bc
    unfold merge_master_panel
    exact sorted_sortReset _
  · intro m
    unfold build_consolidated_panel
    exact sorted_sortReset _
  · intro c d h
    unfold finalize_dataset at h
    by_cases hn : (yearsOf c).Nodup
    · rw [if_pos hn] at h
      injection h with h
      subst h
      exact sorted_sortReset _
    · rw [if_neg hn] at h
      exact Except.noConfusion h

/-- Concrete instance of C10. -/
theorem C10_sorted_by_year_witness :
    List.Sorted rowLe (DF.mk bcKeep []).rows ∧
    List.Sorted rowLe (standardize_balance_sheet wRawBS).rows :=
  ⟨C10_sorted_by_year.1 wRawBC (DF.mk bcKeep []) (by decide),
   C10_sorted_by_year.2.2.1 wRawBS⟩

/-- C3 (deduplication keeps the first row per year): when the coerced
input has a duplicated year, `load_csv` returns the rows sorted by year
with, for each year, exactly the first occurrence in sorted order
retained (`keepFirstByYear` is the specification's reading of
`drop_duplicates(keep="first")`); with no duplicate, it returns the rows
with numeric years unchanged. -/
theorem C3_dedup_keeps_first :
    ∀ raw df, load_csv (some raw) = Except.ok df →
      (¬(yearsOf (loadCoerce raw)).Nodup →
        df.rows = keepFirstByYear (List.insertionSort rowLe (loadCoerce raw).rows) ∧
          List.Sorted rowLe df.rows ∧ (yearsOf df).Nodup) ∧
      ((yearsOf (loadCoerce raw)).Nodup → df.rows = (loadCoerce raw).rows) := by
  intro raw df h
  by_cases hy : raw.cols.contains "year" = true
  · rw [load_csv, if_pos hy] at h
    by_cases hn : (yearsOf (loadCoerce raw)).Nodup
    · rw [if_pos hn] at h
      injection h with h
      subst h
      exact ⟨fun hc => absurd hn hc, fun _ => rfl⟩
    · rw [if_neg hn] at h
      injection h with h
      subst h
      refine ⟨fun _ => ⟨?_, ?_, ?_⟩, fun hc => absurd hc hn⟩
      · show dedupYearAux [] (List.insertionSort rowLe (loadCoerce raw).rows) = _
        rw [dedupYearAux_eq_keepFirst]
        refine congrArg keepFirstByYear ?_
        rw [List.filter_eq_self]
        intro r _
        rfl
      · exact List.Pairwise.sublist (dedupYearAux_sublist _ [])
          (List.sorted_insertionSort rowLe _)
      · exact (dedupYearAux_nodup _ []).1
  · rw [load_csv, if_neg hy] at h
    exact Except.noConfusion h

/-- Concrete instance of C3. -/
theorem C3_dedup_keeps_first_witness :
    (DF.mk ["year"] [[("year", Cell.int 2000)]]).rows =
      keepFirstByYear (List.insertionSort rowLe (loadCoerce wDup).rows) ∧
    (yearsOf (DF.mk ["year"] [[("year", Cell.int 2000)]])).Nodup :=
  have h := C3_dedup_keeps_first wDup
    (DF.mk ["year"] [[("year", Cell.int 2000)]]) (by decide)
  ⟨(h.1 (by decide)).1, (h.1 (by decide)).2.2⟩

/-- C9 (`parse_year`): NaN parses to `None`; any parsed year lies between
1900 and 2099; on a non-missing value the parse returns exactly the
leftmost `19xx`/`20xx` window of the string representation (`yearAt` is
the anchored-match specification) and `None` exactly when no window
matches; and `standardize_balance_sheet` keeps exactly the rows whose
`period` parses, their years being the parsed values. -/
theorem C9_parse_year :
    parse_year Cell.na = none ∧
    (∀ v n, parse_year v = some n → 1900 ≤ n ∧ n ≤ 2099) ∧
    (∀ v : Cell, v ≠ Cell.na →
      (∀ m : Nat, parse_year v = some (m : Int) ↔
        ∃ i, yearAt (cellStr v).data i = some m ∧
          ∀ j < i, yearAt (cellStr v).data j = none) ∧
      (parse_year v = none ↔ ∀ i, yearAt (cellStr v).data i = none)) ∧
    (∀ df : DF, (∀ r ∈ df.rows, rowKeys r = df.cols) →
      (renameCols clean_colname df).cols.contains "period" = true →
      List.Perm (yearsOf (standardize_balance_sheet df))
        (((renameCols clean_colname df).rows.filterMap
          (fun r => parse_year (lookupCell r "period"))).map Cell.int)) := by
  refine ⟨rfl, parse_year_bounds, ?_, bal_sheet_years⟩
  intro v hv
  constructor
  · intro m
    have heq : parse_year v = some (m : Int) ↔
        findYear (cellStr v).data = some m := by
      rw [parse_year_eq v hv]
      cases findYear (cellStr v).data <;> simp
    exact heq.trans (findYear_eq_some_iff _ m)
  · have heq : parse_year v = none ↔ findYear (cellStr v).data = none := by
      rw [parse_year_eq v hv]
      cases findYear (cellStr v).data <;> simp
    exact heq.trans (findYear_eq_none_iff _)

/-- Concrete instance of C9. -/
theorem C9_parse_year_witness :
    (1900 ≤ (2004 : Int) ∧ (2004 : Int) ≤ 2099) ∧
    List.Perm (yearsOf (standardize_balance_sheet wRawBS))
      (((renameCols clean_colname wRawBS).rows.filterMap
        (fun r => parse_year (lookupCell r "period"))).map Cell.int) :=
  ⟨C9_parse_year.2.1 (Cell.str "FY 2004-05") 2004 (by decide),
   C9_parse_year.2.2.2 wRawBS (by decide) (by decide)⟩

/-- C8 (`clean_colname` normal form): the cleaner is idempotent, and its
output is lowercase (no ASCII uppercase), has no whitespace, parentheses,
percent sign, slash or hyphen, no two consecutive underscores, and
neither starts nor ends with an underscore. -/
theorem C8_clean_colname_idempotent_normal (s : String) :
    clean_colname (clean_colname s) = clean_colname s ∧
    (∀ c ∈ (clean_colname s).data,
      isUpperAZ c = false ∧ isPyWs c = false ∧ c ≠ '(' ∧ c ≠ ')' ∧
        c ≠ '%' ∧ c ≠ '/' ∧ c ≠ '-') ∧
    List.Chain' (fun a b => ¬(a = '_' ∧ b = '_')) (clean_colname s).data ∧
    (∀ c, (clean_colname s).data.head? = some c → c ≠ '_') ∧
    (∀ c, (clean_colname s).data.getLast? = some c → c ≠ '_') := by
  have hdata : (clean_colname s).data = cleanChars s.data := rfl
  refine ⟨?_, ?_, ?_, ?_, ?_⟩
  · exact congrArg String.mk (cleanChars_idem s.data)
  · intro c hc
    rw [hdata] at hc
    have hg := goodChar_cleanChars s.data c hc
    simp only [goodChar, preGood, Bool.and_eq_true, Bool.not_eq_true'] at hg
    obtain ⟨⟨⟨⟨⟨⟨⟨⟨hws, hen⟩, hem⟩, hsl⟩, hp1⟩, hp2⟩, hpc⟩, hda⟩, hup⟩ := hg
    exact ⟨hup, hws, by simpa using hp1, by simpa using hp2, by simpa using hpc,
      by simpa using hsl, by simpa using hda⟩
  · rw [hdata]
    apply List.Chain'.imp ?_ (chain'_cleanChars s.data)
    intro a b hab
    rintro ⟨ha, hb⟩
    exact hab ⟨by simp [isUnd, ha], by simp [isUnd, hb]⟩
  · intro c hc
    rw [hdata] at hc
    exact head?_cleanChars s.data c hc
  · intro c hc
    rw [hdata] at hc
    exact getLast?_cleanChars s.data c hc

/-- Concrete instance of C8. -/
theorem C8_clean_colname_witness :
    clean_colname (clean_colname "Log GDP (%) / Total") =
      clean_colname "Log GDP (%) / Total" ∧
    isUpperAZ 'l' = false :=
  ⟨(C8_clean_colname_idempotent_normal "Log GDP (%) / Total").1,
   ((C8_clean_colname_idempotent_normal "Log GDP (%) / Total").2.1 'l'
     (by decide)).1⟩

/-- C6 (OLS with HC1 delegated to the library): the baseline script and
every robustness specification construct their call to the external OLS
routine with covariance type HC1, a prepended constant column of ones,
and exactly the rows on which the coerced response and all coerced
regressors are non-missing (`rowOk`). -/
theorem C6_ols_hc1_delegation :
    (∀ df call, baseline_main df = Except.ok call →
      call.covType = "HC1" ∧
      call.xNames = "const" :: baselineXCols ∧
      (∀ xr ∈ call.xRows, lookupCell xr "const" = Cell.int 1) ∧
      call.y = (df.rows.filter (rowOk "log_bank_credit_growth" baselineXCols)).map
        (fun r => toNumeric (lookupCell r "log_bank_credit_growth")) ∧
      (∀ r, rowOk "log_bank_credit_growth" baselineXCols r = true ↔
        toNumeric (lookupCell r "log_bank_credit_growth") ≠ Cell.na ∧
          ∀ c ∈ baselineXCols, toNumeric (lookupCell r c) ≠ Cell.na)) ∧
    (∀ df calls, robustness_main (some df) = Except.ok calls →
      ∀ p ∈ calls, ∃ spec ∈ specs_filtered df,
        p.1 = spec.1 ∧
        p.2.covType = "HC1" ∧
        p.2.xNames = "const" :: spec.2 ∧
        (∀ xr ∈ p.2.xRows, lookupCell xr "const" = Cell.int 1) ∧
        p.2.y = (df.rows.filter (rowOk robustnessYCol spec.2)).map
          (fun r => toNumeric (lookupCell r robustnessYCol))) := by
  constructor
  · intro df call h
    rcases fit_ols_ok df "log_bank_credit_growth" baselineXCols "HC1" call h with
      ⟨h1, h2, h3, h4, _⟩
    exact ⟨h1, h2, h3, h4, rowOk_iff _ _⟩
  · intro df calls h p hp
    simp only [robustness_main] at h
    by_cases hy : df.cols.contains robustnessYCol = true
    · rw [if_pos hy] at h
      rcases mapM_ok_mem _ _ _ h p hp with ⟨spec, hspec, hfit⟩
      refine ⟨spec, hspec, ?_⟩
      cases hf : fit_ols df robustnessYCol spec.2 "HC1" with
      | error e =>
        rw [hf] at hfit
        exact Except.noConfusion hfit
      | ok call =>
        rw [hf] at hfit
        have hfit' : Except.ok (spec.1, call) = Except.ok p := hfit
        injection hfit' with hfit'
        subst hfit'
        rcases fit_ols_ok df robustnessYCol spec.2 "HC1" call hf with
          ⟨h1, h2, h3, h4, _⟩
        exact ⟨rfl, h1, h2, h3, h4⟩
    · rw [if_neg hy] at h
      exact Except.noConfusion h

/-- Concrete instance of C6. -/
theorem C6_ols_hc1_delegation_witness :
    (OLSCall.mk [] ("const" :: baselineXCols) [] "HC1").covType = "HC1" ∧
    (OLSCall.mk [] ("const" :: baselineXCols) [] "HC1").xNames =
      "const" :: baselineXCols :=
  have h := C6_ols_hc1_delegation.1 wPanel
    (OLSCall.mk [] ("const" :: baselineXCols) [] "HC1") (by decide)
  ⟨h.1, h.2.1⟩

/-- C5 counterexample: with all three input files present but the
business-cycle sheet lacking a year column, `main` raises (the
standardize step throws KeyError), so it neither runs all steps nor
returns 0 — the claim's second half fails as stated. -/
theorem C5_counterexample :
    (Env.mk (some wNoYear) (some wNoYear) (some wNoYear)).businessCycle ≠ none ∧
    (Env.mk (some wNoYear) (some wNoYear) (some wNoYear)).leverage ≠ none ∧
    (Env.mk (some wNoYear) (some wNoYear) (some wNoYear)).balanceSheet ≠ none ∧
    (etl_main (Env.mk (some wNoYear) (some wNoYear) (some wNoYear))).2 ≠
      Except.ok 0 ∧
    (etl_main (Env.mk (some wNoYear) (some wNoYear) (some wNoYear))).1 ≠
      allSteps := by decide

/-- C5 as amended: when an input file is missing, `main` stops right
after validation with exit code 1 and runs no further step; when all
three files exist and `main` returns (raises no exception), it has run
all steps and the code is 0. -/
theorem C5_missing_input_hard_stop :
    (∀ env : Env,
      (env.businessCycle = none ∨ env.leverage = none ∨ env.balanceSheet = none) →
      etl_main env = ([StepTag.validation], Except.ok 1)) ∧
    (∀ bc lev bs n,
      (etl_main (Env.mk (some bc) (some lev) (some bs))).2 = Except.ok n →
      n = 0 ∧
        (etl_main (Env.mk (some bc) (some lev) (some bs))).1 = allSteps) := by
  constructor
  · intro env h
    obtain ⟨b, l, s⟩ := env
    cases b with
    | none => rfl
    | some bb =>
      cases l with
      | none => rfl
      | some ll =>
        cases s with
        | none => rfl
        | some ss =>
          rcases h with h | h | h <;> exact Option.noConfusion h
  · intro bc lev bs n h
    rcases hbc : standardize_business_cycle bc with e | bcS
    · have hval : etl_main (Env.mk (some bc) (some lev) (some bs)) =
          ([StepTag.validation, StepTag.standardize], Except.error e) := by
        simp [etl_main, hbc]
      rw [hval] at h
      simp at h
    · rcases hlev : standardize_leverage lev with e | levS
      · have hval : etl_main (Env.mk (some bc) (some lev) (some bs)) =
            ([StepTag.validation, StepTag.standardize], Except.error e) := by
          simp [etl_main, hbc, hlev]
        rw [hval] at h
        simp at h
      · rcases hm : merge_master_panel_run (some (standardize_balance_sheet bs))
            (some levS) (some bcS) with ⟨mfst, msnd⟩
        cases mfst with
        | error e =>
          have hval : etl_main (Env.mk (some bc) (some lev) (some bs)) =
              ([StepTag.validation, StepTag.standardize, StepTag.writeStd,
                StepTag.merge], Except.error e) := by
            simp [etl_main, hbc, hlev, hm]
          rw [hval] at h
          simp at h
        | ok master =>
          rcases hfin : finalize_dataset (build_consolidated_panel master)
            with e | fin
          · have hval : etl_main (Env.mk (some bc) (some lev) (some bs)) =
                ([StepTag.validation, StepTag.standardize, StepTag.writeStd,
                  StepTag.merge, StepTag.consolidate, StepTag.finalizeStep],
                 Except.error e) := by
              simp [etl_main, hbc, hlev, hm, hfin]
            rw [hval] at h
            simp at h
          · have hval : etl_main (Env.mk (some bc) (some lev) (some bs)) =
                (allSteps, Except.ok 0) := by
              simp [etl_main, hbc, hlev, hm, hfin]
            rw [hval] at h ⊢
            simp at h
            exact ⟨h.symm, rfl⟩

/-- Concrete instance of the amended C5. -/
theorem C5_missing_input_hard_stop_witness :
    etl_main (Env.mk none (some wLev) (some wBS)) =
      ([StepTag.validation], Except.ok 1) ∧
    (etl_main (Env.mk (some wRawBC) (some wRawLev) (some wRawBS))).1 = allSteps :=
  ⟨C5_missing_input_hard_stop.1 (Env.mk none (some wLev) (some wBS)) (Or.inl rfl),
   (C5_missing_input_hard_stop.2 wRawBC wRawLev wRawBS 0 (by decide)).2⟩

/-- C2 (left join on the year key): for standardized inputs with unique
years (and fresh suffixed column names), the master panel's years are
exactly the balance-sheet years; every master row restricts, on the
balance-sheet columns, to one balance-sheet row carried through
unchanged; and a year absent from the leverage or business-cycle input
leaves the corresponding suffixed columns NaN in that row. -/
theorem C2_left_join_on_year (bs lev bc : DF)
    (hwf : ∀ r ∈ bs.rows, rowKeys r = bs.cols)
    (_hbs : (yearsOf bs).Nodup) (hlev : (yearsOf lev).Nodup)
    (hbc : (yearsOf bc).Nodup)
    (h1 : ∀ c ∈ joinRightCols bs.cols lev.cols "_lev", c ∉ bs.cols)
    (h2 : ∀ c ∈ joinRightCols (bs.cols ++ joinRightCols bs.cols lev.cols "_lev")
        bc.cols "_bc", c ∉ bs.cols ++ joinRightCols bs.cols lev.cols "_lev") :
    List.Perm (yearsOf (merge_master_panel bs lev bc)) (yearsOf bs) ∧
    ∀ m ∈ (merge_master_panel bs lev bc).rows, ∃ b ∈ bs.rows,
      (∀ c ∈ bs.cols, lookupCell m c = lookupCell b c) ∧
      yearCell m = yearCell b ∧
      (yearCell b ∉ yearsOf lev →
        ∀ c ∈ joinRightCols bs.cols lev.cols "_lev", lookupCell m c = Cell.na) ∧
      (yearCell b ∉ yearsOf bc →
        ∀ c ∈ joinRightCols (bs.cols ++ joinRightCols bs.cols lev.cols "_lev")
            bc.cols "_bc", lookupCell m c = Cell.na) := by
  refine ⟨merge_years bs lev bc hlev hbc, ?_⟩
  intro m hm
  have hm2 : m ∈ (leftJoinYear (leftJoinYear bs lev "_lev") bc "_bc").rows :=
    (List.perm_insertionSort rowLe
      (leftJoinYear (leftJoinYear bs lev "_lev") bc "_bc").rows).mem_iff.mp hm
  rcases leftJoin_rows_shape (leftJoinYear bs lev "_lev") bc "_bc" m hm2 with
    ⟨j1, hj1, rp2, hmj, hkeys2, hna2⟩
  rcases leftJoin_rows_shape bs lev "_lev" j1 hj1 with
    ⟨b, hb, rp1, hj1b, hkeys1, hna1⟩
  subst hj1b
  subst hmj
  have hkb := hwf b hb
  have hy2 : "year" ∉ rowKeys rp2 := by
    rw [hkeys2]
    exact year_not_mem_joinRightCols _ _ _ append_bc_ne_year
  have hy1 : "year" ∉ rowKeys rp1 := by
    rw [hkeys1]
    exact year_not_mem_joinRightCols _ _ _ append_lev_ne_year
  have hyear : yearCell ((b ++ rp1) ++ rp2) = yearCell b := by
    rw [yearCell_append_right_free _ _ hy2, yearCell_append_right_free _ _ hy1]
  refine ⟨b, hb, ?_, hyear, ?_, ?_⟩
  · intro c hc
    have hcb : c ∈ rowKeys b := by
      rw [hkb]
      exact hc
    rw [lookupCell_append_left rp2
          (by rw [rowKeys_append]; exact List.mem_append_left _ hcb),
        lookupCell_append_left rp1 hcb]
  · intro hnl c hcl
    have hrp1 : rp1 = nullRight bs.cols lev.cols "_lev" := hna1 hnl
    have hcnb : c ∉ rowKeys b := by
      rw [hkb]
      exact h1 c hcl
    have hcr1 : c ∈ rowKeys rp1 := by
      rw [hkeys1]
      exact hcl
    rw [lookupCell_append_left rp2
          (by rw [rowKeys_append]; exact List.mem_append_right _ hcr1),
        lookupCell_append_right rp1 hcnb, hrp1]
    exact lookupCell_all_na _ _
  · intro hnb c hcb2
    have hrp2 : rp2 =
        nullRight (leftJoinYear bs lev "_lev").cols bc.cols "_bc" := by
      apply hna2
      rw [yearCell_append_right_free _ _ hy1]
      exact hnb
    have hcnb : c ∉ rowKeys (b ++ rp1) := by
      rw [rowKeys_append, hkb, hkeys1]
      exact h2 c hcb2
    rw [lookupCell_append_right rp2 hcnb, hrp2]
    exact lookupCell_all_na _ _

/-- Concrete instance of C2. -/
theorem C2_left_join_on_year_witness :
    List.Perm (yearsOf (merge_master_panel wBS wLev wBC)) (yearsOf wBS) :=
  (C2_left_join_on_year wBS wLev wBC (by decide) (by decide) (by decide)
    (by decide) (by decide) (by decide)).1

end Claims
